import Mathlib

set_option maxHeartbeats 1600000

/-!
Verification development for the fast-grpc dispatch core: a shallow
embedding of the dependency resolver (`fast_grpc/core/dependencies.py`),
the method handlers (`fast_grpc/handlers/methods.py`), the middleware
chain (`fast_grpc/middleware/*`), the default exception handlers
(`fast_grpc/exceptions/exception_handlers.py`) and the controller method
registry (`fast_grpc/core/controller.py`).

Python effects are modelled in a state-plus-exception monad `M`:
`await context.abort(code, details)` raises (grpc.aio semantics), so it
is modelled as throwing an `Exc.abortError`; an exception escaping the
whole chain with `Exc.abortError` means the transport aborts the call
with that status, while any other escaping `Exc` is an uncaught
exception crossing the dispatch boundary.  Python exception classes are
modelled by a numeric class id together with the method resolution
order (list of ids, head = exact type), so that `except SomeClass`
(subclass-aware) and `dict.get(type(exc))` (exact type only) can both
be modelled faithfully.
-/

namespace FastGRPC

/-- gRPC status codes (the subset relevant to the embedded code). -/
inductive StatusCode where
  | ok
  | cancelled
  | unknown
  | invalidArgument
  | notFound
  | alreadyExists
  | permissionDenied
  | resourceExhausted
  | failedPrecondition
  | outOfRange
  | internal
  | unavailable
  | unauthenticated
  deriving DecidableEq

/-- Rendering of `status.name`, used by `GRPCException.__init__` which calls
`super().__init__(f"{status.name}: {details}")`. -/
def StatusCode.pyname : StatusCode → String
  | .ok => "OK"
  | .cancelled => "CANCELLED"
  | .unknown => "UNKNOWN"
  | .invalidArgument => "INVALID_ARGUMENT"
  | .notFound => "NOT_FOUND"
  | .alreadyExists => "ALREADY_EXISTS"
  | .permissionDenied => "PERMISSION_DENIED"
  | .resourceExhausted => "RESOURCE_EXHAUSTED"
  | .failedPrecondition => "FAILED_PRECONDITION"
  | .outOfRange => "OUT_OF_RANGE"
  | .internal => "INTERNAL"
  | .unavailable => "UNAVAILABLE"
  | .unauthenticated => "UNAUTHENTICATED"

/-- One entry of `pydantic.ValidationError.errors()`: the message, the field
path (`loc`) and the offending input, each modelled by its textual form. -/
structure ValErr where
  msg : String
  loc : String
  inputVal : String
  deriving DecidableEq

/-- Class ids for the exception classes the embedded code names. -/
def rpcErrorId : Nat := 1

/-- Class id of `grpc.aio.AbortError` (raised by `ServicerContext.abort`);
it is an `Exception` subclass but not a `grpc.RpcError`. -/
def abortErrorId : Nat := 2

/-- Class id of `pydantic.ValidationError`. -/
def validationErrorId : Nat := 3

/-- Class id of `fast_grpc.exceptions.GRPCException`. -/
def grpcExceptionId : Nat := 4

/-- Class id of `StopIteration` / `StopAsyncIteration` (the two are not
distinguished by any embedded code path: both are swallowed together). -/
def stopIterationId : Nat := 5

/-- Class id of `TypeError`. -/
def typeErrorId : Nat := 6

/-- Class id of `IndexError`. -/
def indexErrorId : Nat := 7

/-- Class id of plain `Exception` (raised by the context middleware). -/
def plainExceptionId : Nat := 8

/-- Class id of `RecursionError` (cyclic dependency declarations make
`Depends.resolve_dependencies` recurse without bound). -/
def recursionErrorId : Nat := 9

/-- A raised Python exception.  `exc cls msg` is a generic exception whose
method resolution order is `cls` (head = exact class) and whose `str` form
is `msg`; the structured constructors carry the payloads the embedded
handlers read. -/
inductive Exc where
  | abortError (code : StatusCode) (details : String)
  | validationError (errs : List ValErr)
  | grpcException (status : StatusCode) (details : String)
  | exc (cls : List Nat) (msg : String)
  deriving DecidableEq

/-- `type(e)` as a class id: the exact class, used by the handler lookup
`self._exception_handlers.get(type(exc))`. -/
def Exc.typeId : Exc → Nat
  | .abortError _ _ => abortErrorId
  | .validationError _ => validationErrorId
  | .grpcException _ _ => grpcExceptionId
  | .exc cls _ => cls.headD 0

/-- Method resolution order of the exception's class (head = exact class). -/
def Exc.mro : Exc → List Nat
  | .abortError _ _ => [abortErrorId]
  | .validationError _ => [validationErrorId]
  | .grpcException _ _ => [grpcExceptionId]
  | .exc cls _ => cls

/-- Whether `except grpc.RpcError` catches this exception (subclass-aware). -/
def Exc.isRpcError (e : Exc) : Bool := e.mro.contains rpcErrorId

/-- The `str(exc)` form used in abort details.  For `GRPCException` this is
the message set by its `__init__`; a `ValidationError` never reaches a
`str(exc)` site in the embedded code (its handler always aborts or raises),
so any rendering is adequate there. -/
def Exc.pystr : Exc → String
  | .abortError _ d => d
  | .validationError errs => "ValidationError: " ++ toString errs.length ++ " validation errors"
  | .grpcException s d => s.pyname ++ ": " ++ d
  | .exc _ m => m

/-- Whether the exception is the abort signal (call terminated with status). -/
def Exc.isAbort : Exc → Bool
  | .abortError _ _ => true
  | _ => false

/-- Python values, as far as the embedded code inspects them.  Payloads that
the dispatch core only passes through (dict contents, model fields, message
bytes) are opaque strings. -/
inductive PyVal where
  | pynone
  | pynat (n : Nat)
  | pystr (s : String)
  | pymsg (cls : Nat) (data : String)
  | pydict (data : String)
  | pymodel (cls : Nat) (data : String)
  | genref (gid : Nat)
  deriving DecidableEq

/-- Observable events of one dispatch, recorded in order.  `invoke pid` is a
dependency producer function call; `nextCall gid` is a `next`/`anext` on a
generator instance; `teardown gid` is the generator running its code after
the first yield (the teardown step); `endpointRun` is the user endpoint
body executing. -/
inductive Event where
  | invoke (pid : Nat)
  | nextCall (gid : Nat)
  | teardown (gid : Nat)
  | endpointRun
  deriving DecidableEq

/-- A single-step generator instance: it yields `val` once, then its next
advance runs the teardown step and raises StopIteration.  `pos` = 0 before
the first yield, 1 after it, 2 once exhausted. -/
structure GenInst where
  pos : Nat
  val : PyVal
  deriving DecidableEq

/-- The mutable heap of one method binding: generator instances, the
`_cached_dependencies` list of each `Depends` instance (keyed by an
instance id), the `Dependencies._cached_dependencies` list, and the
event trace.  These objects are created at method registration time and
persist across calls, exactly as in the source. -/
structure St where
  genCtr : Nat
  gens : List (Nat × GenInst)
  dependsLists : List (Nat × List Nat)
  depsList : List Nat
  trace : List Event
  deriving DecidableEq

/-- The initial heap of a freshly registered method. -/
def St.init : St := ⟨0, [], [], [], []⟩

instance {ε α : Type} [DecidableEq ε] [DecidableEq α] :
    DecidableEq (Except ε α) := fun a b =>
  match a, b with
  | .ok x, .ok y =>
      if h : x = y then .isTrue (by rw [h])
      else .isFalse fun hc => h (Except.ok.inj hc)
  | .error e, .error f =>
      if h : e = f then .isTrue (by rw [h])
      else .isFalse fun hc => h (Except.error.inj hc)
  | .ok _, .error _ => .isFalse fun hc => Except.noConfusion hc
  | .error _, .ok _ => .isFalse fun hc => Except.noConfusion hc

/-- State-plus-exception monad: Python state survives a raised exception. -/
def M (α : Type) : Type := St → Except Exc α × St

/-- Run a computation from a given heap. -/
def M.runFrom (x : M α) (st : St) : Except Exc α × St := x st

def M.pure (a : α) : M α := fun st => (.ok a, st)

def M.bind (x : M α) (f : α → M β) : M β := fun st =>
  match x st with
  | (.ok a, st') => f a st'
  | (.error e, st') => (.error e, st')

instance : Monad M where
  pure := M.pure
  bind := M.bind

def M.throw (e : Exc) : M α := fun st => (.error e, st)

def M.tryCatch (x : M α) (handle : Exc → M α) : M α := fun st =>
  match x st with
  | (.ok a, st') => (.ok a, st')
  | (.error e, st') => handle e st'

def M.get : M St := fun st => (.ok st, st)

def M.modify (f : St → St) : M Unit := fun st => (.ok (), f st)

/-- Append an event to the trace. -/
def emit (e : Event) : M Unit :=
  M.modify fun st => { st with trace := st.trace ++ [e] }

/-- Create a fresh generator instance (a generator producer was called). -/
def newGen (v : PyVal) : M Nat := fun st =>
  (.ok st.genCtr,
   { st with
      genCtr := st.genCtr + 1
      gens := st.gens ++ [(st.genCtr, ⟨0, v⟩)] })

/-- Look up a generator instance; an unknown id behaves as exhausted. -/
def St.genOf (st : St) (gid : Nat) : GenInst :=
  (st.gens.lookup gid).getD ⟨2, .pynone⟩

def setGen (gid : Nat) (g : GenInst) : M Unit :=
  M.modify fun st =>
    { st with gens := st.gens.map fun p => if p.1 = gid then (gid, g) else p }

/-- `next(gen)` / `await anext(gen)`: returns `some v` for a yielded value
and `none` when the generator raises StopIteration (exhaustion); advancing
past the first yield runs the teardown step. -/
def nextGen (gid : Nat) : M (Option PyVal) := do
  emit (.nextCall gid)
  let st ← M.get
  let g := st.genOf gid
  if g.pos = 0 then do
    setGen gid ⟨1, g.val⟩
    Pure.pure (some g.val)
  else if g.pos = 1 then do
    emit (.teardown gid)
    setGen gid ⟨2, g.val⟩
    Pure.pure none
  else
    Pure.pure none

/-- `next(gen)` where StopIteration propagates (as in
`Depends.resolve_dependencies`, which documents that it raises it). -/
def forceNext (gid : Nat) : M PyVal := do
  match ← nextGen gid with
  | some v => Pure.pure v
  | none => M.throw (.exc [stopIterationId] "StopIteration")

/-- `try: next(gen) except (StopIteration, StopAsyncIteration): pass` —
the per-handle cleanup step of the endpoint wrapper. -/
def nextSwallow (gid : Nat) : M Unit := do
  let _ ← nextGen gid
  Pure.pure ()

/-- Append a generator to one `Depends` instance's `_cached_dependencies`. -/
def appendDependsList (dIdx gid : Nat) : M Unit :=
  M.modify fun st =>
    { st with
       dependsLists :=
        if st.dependsLists.any (fun p => p.1 = dIdx) then
          st.dependsLists.map fun p =>
            if p.1 = dIdx then (p.1, p.2 ++ [gid]) else p
        else st.dependsLists ++ [(dIdx, [gid])] }

/-- Read one `Depends` instance's `_cached_dependencies` list. -/
def readDependsList (dIdx : Nat) : M (List Nat) := do
  let st ← M.get
  Pure.pure ((st.dependsLists.lookup dIdx).getD [])

/-- Extend `Dependencies._cached_dependencies`. -/
def extendDepsList (gids : List Nat) : M Unit :=
  M.modify fun st => { st with depsList := st.depsList ++ gids }

/-- The behaviour of a dependency producer function when finally called with
its resolved keyword arguments.  Producer return values are modelled as
fixed per producer: the claims under check depend on invocation counts,
caching and cleanup registration, not on how a producer's body uses its
argument values. -/
inductive ProducerKind where
  | plain (v : PyVal)
  | coro (v : PyVal)
  | gen (v : PyVal)
  | asyncGen (v : PyVal)
  | raises (e : Exc)

/-- A dependency producer: the producer ids of its `Depends`-marked
parameters (in signature order) and its body behaviour.  Producer identity
(the function object used as the cache key `dep_func`) is the id indexing
this environment. -/
structure ProducerDef where
  deps : List Nat
  kind : ProducerKind

/-- An environment assigning every producer id its definition. -/
def EnvT : Type := Nat → ProducerDef

/-- The tail of `Depends.resolve_dependencies` (dependencies.py lines
64-74): `result = func(**kwargs)` followed by the result-shape
classification — plain value used directly, coroutine awaited, generator
and async generator appended to `self._cached_dependencies` (the
instance `dIdx`) and advanced once for their first value. -/
def producerResult (dIdx : Nat) : ProducerKind → M PyVal
  | .plain v => Pure.pure v
  | .coro v => Pure.pure v
  | .raises e => M.throw e
  | .gen v => do
      let gid ← newGen v
      appendDependsList dIdx gid
      forceNext gid
  | .asyncGen v => do
      let gid ← newGen v
      appendDependsList dIdx gid
      forceNext gid

/-- The body of `Depends.resolve_dependencies` (dependencies.py lines
46-74) merged with its parameter loop into one list-directed recursion:
resolving producer `p` means resolving the producer list `(env p).deps`
against the shared `cache`, then calling `p` and classifying its result
shape.  The source expresses this as `resolve_dependencies(func, cache)`
recursing at each `Depends`-marked parameter with the guard
`if dep_func in cache` and the post-assignment
`cache[dep_func] = dep_value`; resolving the list `[p]` from a given
cache is behaviourally identical (the top-level function is never in the
initially empty cache, so guarding it too changes nothing).  `dIdx` is
the identity of the `Depends` instance whose `_cached_dependencies`
receives every generator created in this resolution: the source appends
to `self._cached_dependencies` and recursion goes through `self`, so the
whole tree shares the top instance's list.  `fuel` is the recursion
budget standing in for Python's call stack: running out models the
`RecursionError` a cyclic declaration produces.  Returns the resolved
values (in list order) and the final cache. -/
def resolveList (env : EnvT) (dIdx : Nat) :
    Nat → List Nat → List (Nat × PyVal) → M (List PyVal × List (Nat × PyVal))
  | 0, _, _ => M.throw (.exc [recursionErrorId] "maximum recursion depth exceeded")
  | _ + 1, [], cache => Pure.pure ([], cache)
  | fuel + 1, p :: rest, cache =>
    match cache.lookup p with
    | some v => do
        let (vs, cache') ← resolveList env dIdx fuel rest cache
        Pure.pure (v :: vs, cache')
    | none => do
        let (_, cache₁) ← resolveList env dIdx fuel (env p).deps cache
        emit (.invoke p)
        let v ← producerResult dIdx (env p).kind
        let (vs, cache₃) ← resolveList env dIdx fuel rest (cache₁ ++ [(p, v)])
        Pure.pure (v :: vs, cache₃)

/-- `Depends.resolve_dependencies(self.dependency)` with a fresh cache, as
performed by `Depends.__call__`: resolve the producer and return its value. -/
def resolveDependencies (env : EnvT) (dIdx pid fuel : Nat) : M PyVal := do
  let (vs, _) ← resolveList env dIdx fuel [pid] []
  Pure.pure (vs.headD .pynone)

/-- `Depends.__call__` (dependencies.py lines 76-84): resolve with a fresh
cache and return the result together with the instance's (live, cross-call)
`_cached_dependencies` list. -/
def dependsCall (env : EnvT) (fuel dIdx pid : Nat) : M (PyVal × List Nat) := do
  let v ← resolveDependencies env dIdx pid fuel
  let l ← readDependsList dIdx
  Pure.pure (v, l)

/-- One entry of `Dependencies.endpoint_dependencies`: the endpoint
parameter name, the identity of the `Depends` instance sitting in its
default, and the producer id that instance wraps. -/
structure EndpointDep where
  param : String
  dIdx : Nat
  pid : Nat

/-- `Dependencies.get_dependencies_results` (dependencies.py lines
128-156): resolve every endpoint dependency in signature order, collect
generator handles into `Dependencies._cached_dependencies`, and build the
results dict.  A resolved value that is itself a live generator object
(`PyVal.genref`) is registered and advanced, as in the
`inspect.isgenerator` / `inspect.isasyncgen` branches of the source (the
sync and async branches differ only in `next` vs `anext`, which the model
does not distinguish); the `asyncio.iscoroutine` branch cannot fire in
the model because resolved values are never unawaited coroutines.  Result
is the inner dict (the source returns it wrapped in a one-key dict whose
single value the middleware manager passes to the method as the
`dependencies_results` keyword argument). -/
def getDependenciesResults (env : EnvT) (fuel : Nat) :
    List EndpointDep → M (List (String × PyVal))
  | [] => Pure.pure []
  | d :: rest => do
      let (last, gdeps) ← dependsCall env fuel d.dIdx d.pid
      (if gdeps.isEmpty then Pure.pure () else extendDepsList gdeps)
      match last with
      | .genref gid => do
          extendDepsList [gid]
          let w ← forceNext gid
          let tail ← getDependenciesResults env fuel rest
          Pure.pure ((d.param, w) :: tail)
      | v => do
          let tail ← getDependenciesResults env fuel rest
          Pure.pure ((d.param, v) :: tail)

/-- Behaviour of a plain-coroutine user endpoint once awaited. -/
inductive EpBeh where
  | ok (v : PyVal)
  | raises (e : Exc)

/-- A user endpoint object as passed to `BaseMethod.__init__`: either an
`async def` function (awaitable call) or an `async def` generator function
(its call returns an async generator yielding `items`). -/
inductive EndpointDefn where
  | asyncFn (beh : EpBeh)
  | asyncGenFn (items : List PyVal)

/-- Run an awaited plain endpoint body. -/
def epRun : EpBeh → M PyVal
  | .ok v => do
      emit .endpointRun
      Pure.pure v
  | .raises e => do
      emit .endpointRun
      M.throw e

/-- The value of a Python call expression `endpoint(...)`: a coroutine
object for an `async def` function, an async generator object for an
`async def` generator function. -/
inductive CallRet where
  | coro (run : M PyVal)
  | agen (items : List PyVal)

/-- Evaluate the call expression `endpoint(**kwargs)` for a raw endpoint. -/
def callEndpoint : EndpointDefn → CallRet
  | .asyncFn beh => .coro (epRun beh)
  | .asyncGenFn items => .agen items

/-- The cleanup loop of the wrapper returned by
`Dependencies.get_close_dependencies_wrapped_endpoint` (dependencies.py
lines 117-124): advance every registered handle once, swallowing
StopIteration / StopAsyncIteration per handle. -/
def cleanupPass : List Nat → M Unit
  | [] => Pure.pure ()
  | g :: gs => do
      nextSwallow g
      cleanupPass gs

/-- The body of the wrapper returned by
`get_close_dependencies_wrapped_endpoint` (dependencies.py lines
114-126): `result = await endpoint(...)`, then the cleanup loop over
`self._cached_dependencies`, then `return result`.  There is no
try/finally around the await, so a raising endpoint short-circuits past
the cleanup loop.  Awaiting the call of an async generator function is a
`TypeError` in Python. -/
def closeWrappedRun (d : EndpointDefn) : M PyVal := do
  let r ← (match callEndpoint d with
    | .coro m => m
    | .agen _ =>
        M.throw (.exc [typeErrorId]
          "object async_generator cannot be used in await expression"))
  let st ← M.get
  cleanupPass st.depsList
  Pure.pure r

/-- Calling the wrapper: it is an `async def` function, so the call
expression always evaluates to a coroutine object, whatever the wrapped
endpoint was. -/
def closeWrappedCall (d : EndpointDefn) : CallRet := .coro (closeWrappedRun d)

/-- One dispatched call as far as dependency state is concerned: the
outermost middleware wrapper resolves the endpoint's dependencies
(manager.py lines 109-110), and the method then awaits the
cleanup-wrapped endpoint (methods.py line 209).  The middleware stages in
between do not touch dependency state.  Returns the endpoint result. -/
def oneCall (env : EnvT) (fuel : Nat) (eps : List EndpointDep)
    (d : EndpointDefn) : M PyVal := do
  let _ ← getDependenciesResults env fuel eps
  closeWrappedRun d

/-- The method-identity descriptor handed to the context middleware
(`method_descriptor` in `wraps_middleware`'s keyword arguments); it names
the wire-native output message class. -/
structure Descriptor where
  outputType : Nat
  deriving DecidableEq

/-- The context argument threaded through the chain: the raw transport
`ServicerContext` outside the context-binding stage, the
`ControllerContext` wrapper inside it. -/
inductive CtxVal where
  | transport
  | controller (d : Descriptor)
  deriving DecidableEq

/-- The `dependencies_results` keyword argument threaded inward. -/
def DepResults : Type := List (String × PyVal)

/-- A single-result callable in the chain (what a non-iterable middleware
wraps): request, context and the threaded dependency results. -/
def Call : Type := PyVal → CtxVal → DepResults → M PyVal

/-- An exception handler: `handler(request, context, exc)`. -/
def HandlerFn : Type := PyVal → CtxVal → Exc → M Unit

/-- `NotIterableContextMiddleware.__call__` (not_iterable/context.py lines
20-47): with a descriptor, wrap the raw context in a `ControllerContext`
and call inward; without one, raise. -/
def notIterableContextMw (baked : Option Descriptor) (next : Call) : Call :=
  fun req _ctx dres =>
    match baked with
    | some d => next req (.controller d) dres
    | none =>
        M.throw (.exc [plainExceptionId] "Not found descriptor in context middleware")

/-- The except-blocks of `NotIterableExceptionMiddleware.__call__`
(not_iterable/exceptions.py lines 56-68): `grpc.RpcError` is aborted
generically; any other exception is looked up by its exact type in the
handler dict, the handler (if any) is awaited, and then
`context.abort(UNKNOWN, str(exc))` runs — unless the handler itself
aborted, in which case its abort (a raised `AbortError`) has already
left the block. -/
def handleException (handlers : List (Nat × HandlerFn)) (req : PyVal)
    (ctx : CtxVal) (exc : Exc) : M PyVal :=
  if exc.isRpcError then
    M.throw (.abortError .unknown exc.pystr)
  else
    match handlers.lookup exc.typeId with
    | some h => do
        h req ctx exc
        M.throw (.abortError .unknown exc.pystr)
    | none => M.throw (.abortError .unknown exc.pystr)

/-- `NotIterableExceptionMiddleware.__call__`: one try/except boundary
around the inner chain. -/
def notIterableExceptionMw (handlers : List (Nat × HandlerFn))
    (next : Call) : Call :=
  fun req ctx dres =>
    M.tryCatch (next req ctx dres) (handleException handlers req ctx)

/-- The observable behaviour of running a response stream to completion:
the items yielded, then either a normal end or a raised exception. -/
def StreamOut : Type := List PyVal × Except Exc Unit

/-- `IterableContextMiddleware.__call__` (iterable/context.py lines
20-47): with a descriptor it re-yields the inner stream; without one the
`if` fails and the generator body simply ends — an empty stream, no
exception (the source has no else branch). -/
def iterableContextMw (baked : Option Descriptor)
    (next : PyVal → CtxVal → DepResults → StreamOut) :
    PyVal → CtxVal → DepResults → StreamOut :=
  fun req _ctx dres =>
    match baked with
    | some d => next req (.controller d) dres
    | none => ([], .ok ())

/-- Running `IterableExceptionMiddleware.__call__` (iterable/exceptions.py
lines 61-74) to completion over an inner stream: items already yielded
pass through; an exception ending the inner stream is routed exactly as
in the non-iterable flavour. -/
def runIterableExceptionMw (handlers : List (Nat × HandlerFn)) (req : PyVal)
    (ctx : CtxVal) (inner : StreamOut) : St → StreamOut × St :=
  fun st =>
    match inner with
    | (items, .ok ()) => ((items, .ok ()), st)
    | (items, .error e) =>
      if e.isRpcError then
        ((items, .error (.abortError .unknown e.pystr)), st)
      else
        match handlers.lookup e.typeId with
        | some h =>
            match h req ctx e st with
            | (.ok _, st') =>
                ((items, .error (.abortError .unknown e.pystr)), st')
            | (.error e', st') => ((items, .error e'), st')
        | none => ((items, .error (.abortError .unknown e.pystr)), st)

/-- `MiddlewareManager.wraps_middleware` (manager.py lines 150-189) for
the single-result flavour: the reversed-iteration wrapping loop is the
right fold of the middleware list over the innermost method wrapper, and
line 186 (`wrapped.dependencies = method.dependencies`) puts the
dependency resolution on the final — outermost — wrapper, whose
`__call__` resolves dependencies before delegating inward
(manager.py lines 109-111). -/
def wrapsMiddleware (middlewares : List (Call → Call)) (deps : M DepResults)
    (method : Call) : PyVal → CtxVal → M PyVal :=
  let wrapped := middlewares.foldr (fun m w => m w) method
  fun req ctx => do
    let dres ← deps
    wrapped req ctx dres

/-- The single-result chain a `Controller` builds (controller.py lines
71-80): context middleware first (outermost), then exception middleware,
around the method, with the endpoint's dependencies resolved by the
outermost wrapper. -/
def dispatchNotIterable (env : EnvT) (fuel : Nat) (eps : List EndpointDep)
    (handlers : List (Nat × HandlerFn)) (descriptor : Option Descriptor)
    (method : Call) : PyVal → CtxVal → M PyVal :=
  wrapsMiddleware
    [notIterableContextMw descriptor, notIterableExceptionMw handlers]
    (getDependenciesResults env fuel eps) method

/-- `isinstance(response, context.output_type)`: only a wire message of
that concrete class. -/
def isInstanceOf (v : PyVal) (cls : Nat) : Bool :=
  match v with
  | .pymsg c _ => c = cls
  | _ => false

/-- `isinstance(response, dict)`. -/
def isDict (v : PyVal) : Bool :=
  match v with
  | .pydict _ => true
  | _ => false

/-- The external conversion collaborators `serialize_response` delegates
to: `model_validate` (may raise a ValidationError), `model_dump_json`,
`json_to_message` (`Parse`) and `dict_to_message` (`ParseDict`). -/
structure SerOps where
  modelValidate : Nat → PyVal → Except Exc PyVal
  modelDumpJson : PyVal → String
  jsonToMessage : String → Nat → PyVal
  dictToMessage : PyVal → Nat → PyVal

/-- `BaseMethod.serialize_response` (methods.py lines 156-178). -/
def serializeResponse (ops : SerOps) (responseModel : Option Nat)
    (outputType : Nat) (response : PyVal) : Except Exc PyVal :=
  if isInstanceOf response outputType then .ok response
  else
    match responseModel with
    | some m => do
        let validated ← ops.modelValidate m response
        .ok (ops.jsonToMessage (ops.modelDumpJson validated) outputType)
    | none =>
        if isDict response then .ok (ops.dictToMessage response outputType)
        else .ok response

/-- Serialize a produced sequence item by item, in production order. -/
def serializeItems (ops : SerOps) (responseModel : Option Nat)
    (outputType : Nat) : List PyVal → Except Exc (List PyVal)
  | [] => .ok []
  | v :: vs => do
      let s ← serializeResponse ops responseModel outputType v
      let tail ← serializeItems ops responseModel outputType vs
      .ok (s :: tail)

/-- `UnaryStreamMethod.__call__` (methods.py lines 229-258):
`iterator_response = self.endpoint(**values)` evaluates the
cleanup-wrapped endpoint — an `async def` function, so the call is a
coroutine object — and then `async for response in iterator_response`
requires an object with `__aiter__`, raising a TypeError on a coroutine;
were the value an async generator, each produced item would be serialized
and yielded immediately. -/
def unaryStreamMethodCall (ops : SerOps) (responseModel : Option Nat)
    (outputType : Nat) (d : EndpointDefn) : M (List PyVal) := do
  match closeWrappedCall d with
  | .agen items =>
      (match serializeItems ops responseModel outputType items with
       | .ok out => Pure.pure out
       | .error e => M.throw e)
  | .coro _ =>
      M.throw (.exc [typeErrorId]
        "async for requires an object with __aiter__ method, got coroutine")

/-- The detail string built by
`ExceptionsHandlers._pydantic_exception_handler` (exception_handlers.py
line 54). -/
def valErrDetails (e : ValErr) : String :=
  e.msg ++ ". Location: " ++ e.loc ++ ". Input: " ++ e.inputVal

/-- `ExceptionsHandlers._pydantic_exception_handler` (exception_handlers.py
lines 36-55): read the first entry of `exc.errors()` and abort with
`grpc.StatusCode.UNKNOWN` and the composed details.  On a non-
ValidationError argument the attribute access would raise; the registry
only ever routes ValidationError here. -/
def pydanticExceptionHandler : HandlerFn := fun _req _ctx exc =>
  match exc with
  | .validationError [] => M.throw (.exc [indexErrorId] "list index out of range")
  | .validationError (e :: _) => M.throw (.abortError .unknown (valErrDetails e))
  | _ => M.throw (.exc [plainExceptionId] "AttributeError: errors")

/-- `ExceptionsHandlers._grpc_exception_handler` (exception_handlers.py
lines 19-34): abort with the exception's own status and details. -/
def grpcExceptionHandler : HandlerFn := fun _req _ctx exc =>
  match exc with
  | .grpcException s det => M.throw (.abortError s det)
  | _ => M.throw (.exc [plainExceptionId] "AttributeError: status")

/-- `base_exception_handlers` (exception_handlers.py lines 58-64): the
comprehension over the class dict maps each classmethod's `exc`
annotation to it, in definition order. -/
def baseExceptionHandlers : List (Nat × HandlerFn) :=
  [(grpcExceptionId, grpcExceptionHandler),
   (validationErrorId, pydanticExceptionHandler)]

/-- Modelled from the spec: a "client-error status" — a gRPC status code
attributing the failure to the caller's request.  Any reasonable reading
excludes `UNKNOWN`, which the spec itself reserves for the generic
fallback ("generic unknown status"). -/
def specIsClientErrorStatus : StatusCode → Bool
  | .invalidArgument => true
  | .failedPrecondition => true
  | .outOfRange => true
  | .notFound => true
  | .alreadyExists => true
  | .permissionDenied => true
  | .unauthenticated => true
  | _ => false

/-- Python `str.capitalize()`: first character upper, rest lower. -/
def pyCapitalize (w : String) : String := w.toLower.capitalize

/-- `to_pascal_case` (schema/utils.py lines 116-127) at the default
delimiter. -/
def toPascalCase (s : String) : String :=
  String.join ((s.splitOn "_").map pyCapitalize)

/-- `self.name = name or to_pascal_case(endpoint.__name__)`
(methods.py line 78); `or` also replaces an empty string. -/
def resolveMethodName (name : Option String) (endpointName : String) : String :=
  match name with
  | some s => if s.isEmpty then toPascalCase endpointName else s
  | none => toPascalCase endpointName

/-- A registered method as held in `Controller.methods`; the endpoint
object is identified by a numeric id. -/
structure MethodV where
  name : String
  epId : Nat
  deriving DecidableEq

/-- Python dict assignment `d[k] = v` on an insertion-ordered dict with
unique keys: replace in place when present, append otherwise. -/
def dictInsert (ms : List (String × MethodV)) (k : String) (v : MethodV) :
    List (String × MethodV) :=
  if ms.any (fun p => p.1 = k) then
    ms.map fun p => if p.1 = k then (k, v) else p
  else ms ++ [(k, v)]

/-- Arguments of one `Controller.add_method` call. -/
structure Registration where
  name : Option String
  endpointName : String
  epId : Nat

/-- `Controller.add_method` (controller.py lines 113-135): construct the
method (resolving its name) and assign `self.methods[method.name] =
method`. -/
def addMethod (ms : List (String × MethodV)) (r : Registration) :
    List (String × MethodV) :=
  let n := resolveMethodName r.name r.endpointName
  dictInsert ms n ⟨n, r.epId⟩

/-- A sequence of registrations against a fresh controller. -/
def registerAll (regs : List Registration) : List (String × MethodV) :=
  regs.foldl addMethod []

/-- Spec-side description of the retained entry: the most recently
registered method whose resolved name is `n`. -/
def specLastRegistered (regs : List Registration) (n : String) :
    Option MethodV :=
  (regs.reverse.find? fun r => resolveMethodName r.name r.endpointName = n).map
    fun r => ⟨n, r.epId⟩

/-- Producer invocations in a trace, in order. -/
def invokesOf (l : List Event) : List Nat :=
  l.filterMap fun e => match e with | .invoke p => some p | _ => none

/-- Generator advances in a trace, in order. -/
def nextCallsOf (l : List Event) : List Nat :=
  l.filterMap fun e => match e with | .nextCall g => some g | _ => none

/-- Teardown executions in a trace, in order. -/
def teardownsOf (l : List Event) : List Nat :=
  l.filterMap fun e => match e with | .teardown g => some g | _ => none

/-- Pure mirror of `cleanupPass`: the events it appends and the generator
heap it leaves, given the handles to advance. -/
def cleanupSim : List (Nat × GenInst) → List Nat → List Event × List (Nat × GenInst)
  | gens, [] => ([], gens)
  | gens, g :: gs =>
      let gi := (gens.lookup g).getD ⟨2, .pynone⟩
      if gi.pos = 0 then
        let gens' := gens.map fun p => if p.1 = g then (g, ⟨1, gi.val⟩) else p
        let (evs, gens'') := cleanupSim gens' gs
        (Event.nextCall g :: evs, gens'')
      else if gi.pos = 1 then
        let gens' := gens.map fun p => if p.1 = g then (g, ⟨2, gi.val⟩) else p
        let (evs, gens'') := cleanupSim gens' gs
        (Event.nextCall g :: Event.teardown g :: evs, gens'')
      else
        let (evs, gens') := cleanupSim gens gs
        (Event.nextCall g :: evs, gens')

/-- Handlers that either return normally or abort — never raise an
unrelated exception.  The registered default handlers behave this way on
the exceptions actually routed to them. -/
def TameHandlers (handlers : List (Nat × HandlerFn)) : Prop :=
  ∀ k h, (k, h) ∈ handlers → ∀ r c e st,
    (h r c e st).1 = Except.ok () ∨
    ∃ sc det, (h r c e st).1 = Except.error (.abortError sc det)

/-- Fixture: producer 7 returns a plain value and declares no
dependencies. -/
def envShared : EnvT := fun p =>
  if p = 7 then ⟨[], .plain (.pystr "shared")⟩ else ⟨[], .plain .pynone⟩

/-- Fixture endpoint-dependency list: two parameters with two distinct
`Depends` instances, both wrapping producer 7. -/
def epsShared : List EndpointDep := [⟨"a", 0, 7⟩, ⟨"b", 1, 7⟩]

/-- Fixture: producer 1 is a single-step (setup/teardown) generator. -/
def envGen : EnvT := fun p =>
  if p = 1 then ⟨[], .gen (.pystr "resource")⟩ else ⟨[], .plain .pynone⟩

/-- Fixture endpoint-dependency list: one generator-shaped dependency. -/
def epsGen : List EndpointDep := [⟨"g", 0, 1⟩]

/-- Fixture: producer 3 raises a user-defined exception when invoked. -/
def envRaise : EnvT := fun p =>
  if p = 3 then ⟨[], .raises (.exc [42] "boom")⟩ else ⟨[], .plain .pynone⟩

/-- Fixture endpoint-dependency list referencing the raising producer. -/
def epsRaise : List EndpointDep := [⟨"x", 0, 3⟩]

/-- Fixture conversion collaborators for serialization statements. -/
def opsFix : SerOps where
  modelValidate := fun m _ => .ok (.pymodel m "validated")
  modelDumpJson := fun _ => "json"
  jsonToMessage := fun s c => .pymsg c s
  dictToMessage := fun _ c => .pymsg c "fromdict"

/-- Fixture handler registered for exception class 100: aborts with a
caller-chosen status and message. -/
def hAbortFix : HandlerFn := fun _ _ _ => M.throw (.abortError .internal "handled")

/-- Fixture registry with the single handler for class 100. -/
def handlersFix : List (Nat × HandlerFn) := [(100, hAbortFix)]

/-- Fixture innermost method: returns a fixed response message. -/
def methodOkFix : Call := fun _ _ _ => Pure.pure (.pystr "resp")

/-- The heap left by one successful call of the envGen/epsGen fixture
method from a fresh heap (used to exhibit the second call). -/
def c4st1 : St :=
  ⟨1, [(0, ⟨2, .pystr "resource"⟩)], [(0, [0])], [0],
   [.invoke 1, .nextCall 0, .endpointRun, .nextCall 0, .teardown 0]⟩

/-- Append-only behaviour of the trace and of
`Dependencies._cached_dependencies`: the computation only ever appends
to these two heap components. -/
def PartsOK {α : Type} (x : M α) : Prop :=
  ∀ st : St, ∃ Δt Δd, (x st).2.trace = st.trace ++ Δt ∧
    (x st).2.depsList = st.depsList ++ Δd

/-! Helper lemmas about the monad and the trace extractors. -/

theorem bind_def {α β} (x : M α) (f : α → M β) : x >>= f = M.bind x f := rfl

theorem pure_def {α} (a : α) : (Pure.pure a : M α) = M.pure a := rfl

theorem runFrom_def {α} (x : M α) (st : St) : x.runFrom st = x st := rfl

theorem bind_ok {α β} {x : M α} {f : α → M β} {st st' : St} {a : α}
    (h : x st = (.ok a, st')) : (x >>= f) st = f a st' := by
  show M.bind x f st = _
  simp [M.bind, h]

theorem bind_error {α β} {x : M α} {f : α → M β} {st st' : St} {e : Exc}
    (h : x st = (.error e, st')) : (x >>= f) st = (.error e, st') := by
  show M.bind x f st = _
  simp [M.bind, h]

theorem invokesOf_append (a b : List Event) :
    invokesOf (a ++ b) = invokesOf a ++ invokesOf b := by
  simp [invokesOf]

theorem nextCallsOf_append (a b : List Event) :
    nextCallsOf (a ++ b) = nextCallsOf a ++ nextCallsOf b := by
  simp [nextCallsOf]

theorem lookupAppend {α β} [BEq α] [LawfulBEq α] (l₁ l₂ : List (α × β)) (k : α) :
    (l₁ ++ l₂).lookup k = ((l₁.lookup k).orElse fun _ => l₂.lookup k) := by
  induction l₁ with
  | nil => simp [List.lookup]
  | cons hd tl ih =>
      obtain ⟨a, b⟩ := hd
      by_cases h : k = a
      · subst h
        simp [List.lookup]
      · have hb : (k == a) = false := by simp [h]
        simp [List.lookup, hb, ih]

theorem mem_of_lookup {α β} [BEq α] [LawfulBEq α] {l : List (α × β)} {k : α}
    {v : β} (h : l.lookup k = some v) : (k, v) ∈ l := by
  induction l with
  | nil => simp [List.lookup] at h
  | cons hd tl ih =>
      obtain ⟨a, b⟩ := hd
      by_cases hk : k = a
      · subst hk
        simp [List.lookup] at h
        simp [h]
      · have hb : (k == a) = false := by simp [hk]
        rw [List.lookup, hb] at h
        exact List.mem_cons_of_mem _ (ih h)


/-! C6 — context-binding stage without a method-identity descriptor. -/

/-- C6 counterexample: the claim says both chain flavours fail fast by
raising a configuration error when no method-identity descriptor is
supplied; the sequence-producing context middleware instead completes
silently with an empty stream (no exception is raised). -/
theorem c6_counterexample :
    iterableContextMw Option.none
        (fun _ _ _ => ([.pystr "item"], .ok ())) (.pystr "req") .transport []
      = ([], .ok ()) ∧
    (iterableContextMw Option.none
        (fun _ _ _ => ([.pystr "item"], .ok ())) (.pystr "req") .transport []).2
      ≠ .error (.exc [plainExceptionId] "Not found descriptor in context middleware") := by
  exact ⟨rfl, by decide⟩

/-- C6 (amended): when no method-identity descriptor is supplied, the
single-result context middleware fails fast by raising the configuration
error, while the sequence-producing context middleware silently produces
an empty stream without raising; with a descriptor both flavours bind
the controller context and delegate inward. -/
theorem c6_amended (next : Call)
    (inext : PyVal → CtxVal → DepResults → StreamOut)
    (req : PyVal) (ctx : CtxVal) (dres : DepResults) (st : St)
    (d : Descriptor) :
    ((notIterableContextMw Option.none next) req ctx dres).runFrom st
      = (.error (.exc [plainExceptionId]
          "Not found descriptor in context middleware"), st) ∧
    iterableContextMw Option.none inext req ctx dres = ([], .ok ()) ∧
    (notIterableContextMw (some d) next) req ctx dres
      = next req (.controller d) dres ∧
    iterableContextMw (some d) inext req ctx dres
      = inext req (.controller d) dres := by
  exact ⟨rfl, rfl, rfl, rfl⟩

/-! C7 — streaming-response dispatch. -/

/-- C7: the claim says a streaming-response call whose endpoint produces N
items yields exactly N serialized outputs; in the code every
streaming-response call raises a TypeError instead, because
`BaseMethod.__init__` wraps the endpoint in an `async def` cleanup
wrapper and `UnaryStreamMethod.__call__` then iterates the coroutine
returned by calling it (which has no `__aiter__`).  The first conjunct
evaluates the modelled method: no items are produced and the TypeError
is raised, for every endpoint shape.  The second conjunct shows the
per-item serialization the `async for` body would perform on the
endpoint's own items preserves count and order. -/
theorem c7_stream_typeerror :
    (∀ (ops : SerOps) (rm : Option Nat) (ot : Nat) (d : EndpointDefn) (st : St),
       (unaryStreamMethodCall ops rm ot d).runFrom st =
         (.error (.exc [typeErrorId]
           "async for requires an object with __aiter__ method, got coroutine"), st)) ∧
    serializeItems opsFix Option.none 55 [.pydict "a", .pydict "b", .pydict "c"]
      = .ok [.pymsg 55 "fromdict", .pymsg 55 "fromdict", .pymsg 55 "fromdict"] := by
  constructor
  · intro ops rm ot d st
    rfl
  · decide

/-! C8 — serialization policy of `BaseMethod.serialize_response`. -/

/-- C8: serialization follows the three-branch policy — a response that is
already an instance of the wire-native output type passes through
unchanged; otherwise with a declared response schema the response is
validated/converted to the schema and encoded to wire form; otherwise a
generic mapping is encoded directly. -/
theorem c8_serialize_policy (ops : SerOps) (rm : Option Nat) (ot : Nat)
    (resp : PyVal) :
    (isInstanceOf resp ot = true → serializeResponse ops rm ot resp = .ok resp) ∧
    (∀ m, isInstanceOf resp ot = false → rm = some m →
       serializeResponse ops rm ot resp =
         match ops.modelValidate m resp with
         | .ok validated => .ok (ops.jsonToMessage (ops.modelDumpJson validated) ot)
         | .error e => .error e) ∧
    (isInstanceOf resp ot = false → rm = none → isDict resp = true →
       serializeResponse ops rm ot resp = .ok (ops.dictToMessage resp ot)) := by
  refine ⟨fun h1 => ?_, fun m h1 h2 => ?_, fun h1 h2 h3 => ?_⟩
  · simp [serializeResponse, h1]
  · subst h2
    simp only [serializeResponse, h1, Bool.false_eq_true, if_false]
    cases ops.modelValidate m resp with
    | ok validated => rfl
    | error e => rfl
  · subst h2
    simp [serializeResponse, h1, h3]

/-- C8 witness: the three branches at concrete inputs. -/
theorem c8_serialize_policy_witness :
    serializeResponse opsFix (some 9) 55 (.pymsg 55 "raw") = .ok (.pymsg 55 "raw") ∧
    serializeResponse opsFix (some 9) 55 (.pydict "d")
      = .ok (.pymsg 55 "json") ∧
    serializeResponse opsFix Option.none 55 (.pydict "d")
      = .ok (.pymsg 55 "fromdict") := by
  refine ⟨(c8_serialize_policy opsFix (some 9) 55 (.pymsg 55 "raw")).1 (by decide),
          ?_, (c8_serialize_policy opsFix Option.none 55 (.pydict "d")).2.2
            (by decide) rfl (by decide)⟩
  have h := (c8_serialize_policy opsFix (some 9) 55 (.pydict "d")).2.1 9
    (by decide) rfl
  simpa [opsFix] using h

/-! C9 — default ValidationError handler. -/

/-- C9 counterexample: the claim says a schema ValidationError is aborted
with a client-error status; the registered default handler aborts with
the generic unknown status (its details do carry location, input and
message). -/
theorem c9_counterexample :
    (handleException baseExceptionHandlers (.pystr "req") .transport
        (.validationError [⟨"value is not a valid integer", "name", "abc"⟩])).runFrom
        St.init
      = (.error (.abortError .unknown
          "value is not a valid integer. Location: name. Input: abc"), St.init) ∧
    specIsClientErrorStatus .unknown = false := by
  exact ⟨rfl, rfl⟩

/-- C9 (amended): for every call raising a schema ValidationError, the
registered default handler aborts the call with the generic unknown
status whose details carry the validation message, the field path
(location) and the offending input value, in that composition. -/
theorem c9_amended (req : PyVal) (ctx : CtxVal) (e : ValErr)
    (rest : List ValErr) (st : St) :
    (handleException baseExceptionHandlers req ctx
        (.validationError (e :: rest))).runFrom st
      = (.error (.abortError .unknown
          (e.msg ++ ". Location: " ++ e.loc ++ ". Input: " ++ e.inputVal)), st) := by
  rfl

/-! C10 — controller method registry. -/

theorem keys_dictInsert (ms : List (String × MethodV)) (k : String)
    (v : MethodV) :
    (dictInsert ms k v).map Prod.fst
      = if ms.any (fun p => p.1 = k) then ms.map Prod.fst
        else ms.map Prod.fst ++ [k] := by
  by_cases h : ms.any (fun p => p.1 = k)
  · simp only [dictInsert, h, if_true]
    rw [List.map_map]
    apply List.map_congr_left
    intro p _
    by_cases hp : p.1 = k
    · simp [Function.comp, hp]
    · simp [Function.comp, hp]
  · simp [dictInsert, h]

theorem lookup_replace_self (ms : List (String × MethodV)) (k : String)
    (v : MethodV) (h : ms.any (fun p => p.1 = k) = true) :
    (ms.map fun p => if p.1 = k then (k, v) else p).lookup k = some v := by
  induction ms with
  | nil => simp at h
  | cons hd tl ih =>
      obtain ⟨a, b⟩ := hd
      by_cases ha : a = k
      · subst ha
        rw [List.map_cons, if_pos rfl]
        simp [List.lookup]
      · have h' : tl.any (fun p => p.1 = k) = true := by simpa [ha] using h
        have hb : (k == a) = false := by simp [Ne.symm ha]
        rw [List.map_cons, if_neg ha]
        simp [List.lookup, hb, ih h']

theorem lookup_replace_other (ms : List (String × MethodV)) (k j : String)
    (v : MethodV) (hj : j ≠ k) :
    (ms.map fun p => if p.1 = k then (k, v) else p).lookup j = ms.lookup j := by
  induction ms with
  | nil => simp
  | cons hd tl ih =>
      obtain ⟨a, b⟩ := hd
      by_cases ha : a = k
      · subst ha
        have hb : (j == a) = false := by simp [hj]
        rw [List.map_cons, if_pos rfl]
        simp [List.lookup, hb, ih]
      · rw [List.map_cons, if_neg ha]
        cases hb : (j == a) with
        | true => simp [List.lookup, hb]
        | false => simp [List.lookup, hb, ih]

theorem lookup_none_of_not_any (ms : List (String × MethodV)) (k : String)
    (h : ms.any (fun p => p.1 = k) = false) :
    ms.lookup k = none := by
  induction ms with
  | nil => simp
  | cons hd tl ih =>
      obtain ⟨a, b⟩ := hd
      simp only [List.any_cons, Bool.or_eq_false_iff] at h
      have ha : a ≠ k := by
        have h1 := h.1
        simp only [decide_eq_false_iff_not] at h1
        exact h1
      have hb : (k == a) = false := by simp [Ne.symm ha]
      simp [List.lookup, hb, ih h.2]

theorem lookup_dictInsert (ms : List (String × MethodV)) (k j : String)
    (v : MethodV) :
    (dictInsert ms k v).lookup j = if j = k then some v else ms.lookup j := by
  unfold dictInsert
  by_cases h : ms.any (fun p => p.1 = k) = true
  · rw [if_pos h]
    by_cases hj : j = k
    · subst hj
      rw [if_pos rfl]
      exact lookup_replace_self ms j v h
    · rw [if_neg hj]
      exact lookup_replace_other ms k j v hj
  · rw [if_neg h]
    rw [lookupAppend]
    have hfalse : ms.any (fun p => p.1 = k) = false := by
      revert h
      cases ms.any (fun p => p.1 = k) <;> simp
    by_cases hj : j = k
    · subst hj
      rw [if_pos rfl, lookup_none_of_not_any ms j hfalse]
      simp [List.lookup]
    · rw [if_neg hj]
      have hone : List.lookup j [(k, v)] = none := by
        have hb : (j == k) = false := by simp [hj]
        simp [List.lookup, hb]
      rw [hone]
      cases hms : ms.lookup j <;> simp [Option.orElse]

theorem findqAppend {α} (p : α → Bool) (l₁ l₂ : List α) :
    (l₁ ++ l₂).find? p = ((l₁.find? p).orElse fun _ => l₂.find? p) := by
  induction l₁ with
  | nil => simp [List.find?, Option.orElse]
  | cons hd tl ih =>
      cases hp : p hd with
      | true => simp [List.find?, hp, Option.orElse]
      | false => simp [List.find?, hp, ih]

theorem registerFold_lookup (regs : List Registration) :
    ∀ (init : List (String × MethodV)) (n : String),
      (regs.foldl addMethod init).lookup n =
        match specLastRegistered regs n with
        | some m => some m
        | none => init.lookup n := by
  induction regs with
  | nil =>
      intro init n
      simp [specLastRegistered]
  | cons r rs ih =>
      intro init n
      have h1 : (r :: rs).foldl addMethod init
          = rs.foldl addMethod (addMethod init r) := rfl
      rw [h1, ih]
      cases hfind : rs.reverse.find?
          (fun r' => resolveMethodName r'.name r'.endpointName = n) with
      | some r₀ =>
          simp [specLastRegistered, List.reverse_cons, findqAppend, hfind,
            Option.orElse]
      | none =>
          simp only [specLastRegistered, List.reverse_cons, findqAppend, hfind,
            Option.orElse, Option.map]
          unfold addMethod
          rw [lookup_dictInsert]
          by_cases hr : resolveMethodName r.name r.endpointName = n
          · simp [List.find?, hr]
          · simp [List.find?, hr, Ne.symm hr]

theorem keys_addMethod_nodup (ms : List (String × MethodV))
    (r : Registration) (h : (ms.map Prod.fst).Nodup) :
    ((addMethod ms r).map Prod.fst).Nodup := by
  unfold addMethod
  rw [keys_dictInsert]
  by_cases hany :
      ms.any (fun p => p.1 = resolveMethodName r.name r.endpointName) = true
  · rw [if_pos hany]
    exact h
  · rw [if_neg hany]
    have hnotin : resolveMethodName r.name r.endpointName ∉ ms.map Prod.fst := by
      intro hmem
      apply hany
      obtain ⟨p, hp, hep⟩ := List.mem_map.mp hmem
      simp only [List.any_eq_true]
      exact ⟨p, hp, by simp [hep]⟩
    refine List.Nodup.append h (List.nodup_singleton _) ?_
    intro a ha hb
    simp only [List.mem_singleton] at hb
    subst hb
    exact hnotin ha

theorem registerAll_keys_nodup (regs : List Registration) :
    ((registerAll regs).map Prod.fst).Nodup := by
  unfold registerAll
  have h : ∀ (init : List (String × MethodV)), (init.map Prod.fst).Nodup →
      ((regs.foldl addMethod init).map Prod.fst).Nodup := by
    induction regs with
    | nil => intro init hi; exact hi
    | cons r rs ih =>
        intro init hi
        exact ih (addMethod init r) (keys_addMethod_nodup init r hi)
  exact h [] (by simp)

/-- C10: registering a second method whose resolved name equals an
already-registered method's name never raises: the controller's method
map silently replaces the earlier entry, so every registration sequence
leaves exactly one method per resolved name — the most recently
registered one. -/
theorem c10_registry_last_wins (regs : List Registration) (n : String) :
    ((registerAll regs).map Prod.fst).Nodup ∧
    (registerAll regs).lookup n = specLastRegistered regs n := by
  refine ⟨registerAll_keys_nodup regs, ?_⟩
  have h := registerFold_lookup regs [] n
  unfold registerAll
  cases hs : specLastRegistered regs n with
  | some m => rw [h, hs]
  | none =>
      rw [h, hs]
      simp [List.lookup]

/-! C5 — exact-kind exception routing. -/

/-- C5: for every call raising a non-transport exception, the
exception-handling stage looks the handler up by the exception's exact
kind only (no class-hierarchy walk): a registered handler is invoked and
determines the resulting abort status/message, with a fallback generic
abort issued if the handler returns without aborting; an unregistered
exact kind — even when an ancestor class is registered — yields the
generic unknown abort whose details are the exception's textual form.
Both chain flavours route alike, the sequence-producing one passing
already-yielded items through. -/
theorem c5_exact_kind_lookup (handlers : List (Nat × HandlerFn)) (req : PyVal)
    (ctx : CtxVal) (e : Exc) (st : St) :
    (∀ (next : Call) (dres : DepResults) (st1 : St),
        (next req ctx dres).runFrom st = (.error e, st1) →
        ((notIterableExceptionMw handlers next) req ctx dres).runFrom st
          = (handleException handlers req ctx e).runFrom st1) ∧
    (e.isRpcError = false → handlers.lookup e.typeId = none →
        (handleException handlers req ctx e).runFrom st
          = (.error (.abortError .unknown e.pystr), st)) ∧
    (∀ (h : HandlerFn) (sc : StatusCode) (det : String) (st1 : St),
        e.isRpcError = false →
        handlers.lookup e.typeId = some h →
        (h req ctx e).runFrom st = (.error (.abortError sc det), st1) →
        (handleException handlers req ctx e).runFrom st
          = (.error (.abortError sc det), st1)) ∧
    (∀ (h : HandlerFn) (st1 : St),
        e.isRpcError = false →
        handlers.lookup e.typeId = some h →
        (h req ctx e).runFrom st = (.ok (), st1) →
        (handleException handlers req ctx e).runFrom st
          = (.error (.abortError .unknown e.pystr), st1)) ∧
    (∀ (c : Nat) (anc : List Nat) (m : String) (a : Nat) (h : HandlerFn),
        e = .exc (c :: anc) m → e.isRpcError = false →
        handlers.lookup c = none → a ∈ anc → handlers.lookup a = some h →
        (handleException handlers req ctx e).runFrom st
          = (.error (.abortError .unknown m), st)) ∧
    (∀ (items : List PyVal), e.isRpcError = false →
        handlers.lookup e.typeId = none →
        runIterableExceptionMw handlers req ctx (items, .error e) st
          = ((items, .error (.abortError .unknown e.pystr)), st)) ∧
    (∀ (items : List PyVal) (h : HandlerFn) (sc : StatusCode) (det : String)
        (st1 : St),
        e.isRpcError = false →
        handlers.lookup e.typeId = some h →
        (h req ctx e).runFrom st = (.error (.abortError sc det), st1) →
        runIterableExceptionMw handlers req ctx (items, .error e) st
          = ((items, .error (.abortError sc det)), st1)) := by
  refine ⟨?_, ?_, ?_, ?_, ?_, ?_, ?_⟩
  · intro next dres st1 hrun
    show M.tryCatch (next req ctx dres) (handleException handlers req ctx) st = _
    rw [M.tryCatch]
    rw [runFrom_def] at hrun
    rw [hrun]
    rfl
  · intro he hnone
    show handleException handlers req ctx e st = _
    rw [handleException]
    rw [if_neg (by simp [he])]
    rw [hnone]
    rfl
  · intro h sc det st1 he hsome hrun
    show handleException handlers req ctx e st = _
    rw [handleException, if_neg (by simp [he]), hsome]
    exact bind_error hrun
  · intro h st1 he hsome hrun
    show handleException handlers req ctx e st = _
    rw [handleException, if_neg (by simp [he]), hsome]
    exact (bind_ok hrun).trans rfl
  · intro c anc m a h hse he hcnone _hmem _hanc
    subst hse
    show handleException handlers req ctx (.exc (c :: anc) m) st = _
    rw [handleException, if_neg (by simp [he])]
    have htid : (Exc.exc (c :: anc) m).typeId = c := rfl
    rw [htid, hcnone]
    rfl
  · intro items he hnone
    rw [runIterableExceptionMw]
    simp only [he, Bool.false_eq_true, if_false, hnone]
  · intro items h sc det st1 he hsome hrun
    rw [runIterableExceptionMw]
    simp only [he, Bool.false_eq_true, if_false, hsome]
    rw [runFrom_def] at hrun
    rw [hrun]

/-- C5 witness: an unregistered exact kind with a registered ancestor
class falls back to the generic unknown abort (no hierarchy walk); a
registered exact kind is routed to its handler, whose abort decides the
resulting status and message; both flavours shown. -/
theorem c5_exact_kind_lookup_witness :
    (handleException handlersFix (.pystr "req") .transport
        (.exc [101, 100] "sub")).runFrom St.init
      = (.error (.abortError .unknown "sub"), St.init) ∧
    (handleException handlersFix (.pystr "req") .transport
        (.exc [100] "hit")).runFrom St.init
      = (.error (.abortError .internal "handled"), St.init) ∧
    ((notIterableExceptionMw handlersFix
        (fun _ _ _ => M.throw (.exc [101, 100] "sub")))
        (.pystr "req") .transport []).runFrom St.init
      = (.error (.abortError .unknown "sub"), St.init) ∧
    runIterableExceptionMw handlersFix (.pystr "req") .transport
        ([.pystr "x"], .error (.exc [100] "hit")) St.init
      = (([.pystr "x"], .error (.abortError .internal "handled")), St.init) := by
  have ha := c5_exact_kind_lookup handlersFix (.pystr "req") .transport
    (.exc [101, 100] "sub") St.init
  have hb := c5_exact_kind_lookup handlersFix (.pystr "req") .transport
    (.exc [100] "hit") St.init
  have h1 := ha.2.2.2.2.1 101 [100] "sub" 100 hAbortFix rfl (by decide)
    rfl (by decide) rfl
  have h2 := hb.2.2.1 hAbortFix .internal "handled" St.init (by decide) rfl rfl
  refine ⟨h1, h2, ?_, ?_⟩
  · have h3 := ha.1 (fun _ _ _ => M.throw (.exc [101, 100] "sub")) [] St.init rfl
    rw [h3, h1]
  · exact hb.2.2.2.2.2.2 [.pystr "x"] hAbortFix .internal "handled" St.init
      (by decide) rfl rfl

theorem emit_apply (e : Event) (st : St) :
    emit e st = (.ok (), { st with trace := st.trace ++ [e] }) := rfl

theorem newGen_apply (v : PyVal) (st : St) :
    newGen v st = (.ok st.genCtr,
      { st with genCtr := st.genCtr + 1
                gens := st.gens ++ [(st.genCtr, ⟨0, v⟩)] }) := rfl

theorem appendDependsList_apply (dIdx g : Nat) (st : St) :
    (appendDependsList dIdx g) st
      = (.ok (), { st with dependsLists :=
          if st.dependsLists.any (fun p => p.1 = dIdx) then
            st.dependsLists.map fun p =>
              if p.1 = dIdx then (p.1, p.2 ++ [g]) else p
          else st.dependsLists ++ [(dIdx, [g])] }) := rfl

theorem forceNext_parts (g : Nat) (st : St) :
    ∃ Δ, ((forceNext g) st).2.trace = st.trace ++ Δ ∧
         ((forceNext g) st).2.depsList = st.depsList ∧
         invokesOf Δ = [] := by
  by_cases h0 : ((st.gens.lookup g).getD ⟨2, .pynone⟩).pos = 0
  · refine ⟨[.nextCall g], ?_, ?_, rfl⟩ <;>
      simp [forceNext, nextGen, emit, M.modify, M.get, setGen, bind_def, M.bind,
        pure_def, M.pure, M.throw, St.genOf, h0]
  · by_cases h1 : ((st.gens.lookup g).getD ⟨2, .pynone⟩).pos = 1
    · refine ⟨[.nextCall g, .teardown g], ?_, ?_, rfl⟩ <;>
        simp [forceNext, nextGen, emit, M.modify, M.get, setGen, bind_def, M.bind,
          pure_def, M.pure, M.throw, St.genOf, h0, h1]
    · refine ⟨[.nextCall g], ?_, ?_, rfl⟩ <;>
        simp [forceNext, nextGen, emit, M.modify, M.get, setGen, bind_def, M.bind,
          pure_def, M.pure, M.throw, St.genOf, h0, h1]

theorem producerResult_parts (dIdx : Nat) (k : ProducerKind) (st : St) :
    ∃ Δ, ((producerResult dIdx k) st).2.trace = st.trace ++ Δ ∧
         ((producerResult dIdx k) st).2.depsList = st.depsList ∧
         invokesOf Δ = [] := by
  cases k with
  | plain v => exact ⟨[], by simp [producerResult, pure_def, M.pure], rfl, rfl⟩
  | coro v => exact ⟨[], by simp [producerResult, pure_def, M.pure], rfl, rfl⟩
  | raises e => exact ⟨[], by simp [producerResult, M.throw], rfl, rfl⟩
  | gen v =>
      have h1 : (producerResult dIdx (.gen v)) st
          = (forceNext st.genCtr)
            { st with genCtr := st.genCtr + 1
                      gens := st.gens ++ [(st.genCtr, ⟨0, v⟩)]
                      dependsLists :=
                        if st.dependsLists.any (fun p => p.1 = dIdx) then
                          st.dependsLists.map fun p =>
                            if p.1 = dIdx then (p.1, p.2 ++ [st.genCtr]) else p
                        else st.dependsLists ++ [(dIdx, [st.genCtr])] } := rfl
      rw [h1]
      obtain ⟨Δ, ht, hd, hi⟩ := forceNext_parts st.genCtr _
      exact ⟨Δ, ht, hd, hi⟩
  | asyncGen v =>
      have h1 : (producerResult dIdx (.asyncGen v)) st
          = (forceNext st.genCtr)
            { st with genCtr := st.genCtr + 1
                      gens := st.gens ++ [(st.genCtr, ⟨0, v⟩)]
                      dependsLists :=
                        if st.dependsLists.any (fun p => p.1 = dIdx) then
                          st.dependsLists.map fun p =>
                            if p.1 = dIdx then (p.1, p.2 ++ [st.genCtr]) else p
                        else st.dependsLists ++ [(dIdx, [st.genCtr])] } := rfl
      rw [h1]
      obtain ⟨Δ, ht, hd, hi⟩ := forceNext_parts st.genCtr _
      exact ⟨Δ, ht, hd, hi⟩

theorem lookup_single {β : Type} (p q : Nat) (v : β) :
    List.lookup q [(p, v)] = if q = p then some v else none := by
  by_cases h : q = p
  · simp [List.lookup, h]
  · have hb : (q == p) = false := by simp [h]
    rw [if_neg h]
    simp [List.lookup, hb]

theorem resolveList_spec (env : EnvT) (rank : Nat → Nat)
    (hrank : ∀ p q, q ∈ (env p).deps → rank q < rank p) :
    ∀ (fuel : Nat) (ps : List Nat) (cache : List (Nat × PyVal)) (st : St)
      (dIdx : Nat),
      ∃ Δ : List Event,
        ((resolveList env dIdx fuel ps cache) st).2.trace = st.trace ++ Δ ∧
        ((resolveList env dIdx fuel ps cache) st).2.depsList = st.depsList ∧
        (invokesOf Δ).Nodup ∧
        (∀ q ∈ invokesOf Δ, cache.lookup q = none) ∧
        (∀ q ∈ invokesOf Δ, ∃ x ∈ ps, rank q ≤ rank x) ∧
        (∀ out, ((resolveList env dIdx fuel ps cache) st).1 = .ok out →
          (∀ k w, cache.lookup k = some w → out.2.lookup k = some w) ∧
          (∀ q ∈ invokesOf Δ, ∃ w, out.2.lookup q = some w) ∧
          (∀ k, cache.lookup k = none → k ∉ invokesOf Δ →
            out.2.lookup k = none)) := by
  intro fuel
  induction fuel with
  | zero =>
      intro ps cache st dIdx
      refine ⟨[], by simp [resolveList, M.throw], rfl, List.nodup_nil,
        by simp [invokesOf], by simp [invokesOf], ?_⟩
      intro out hout
      simp [resolveList, M.throw] at hout
  | succ fuel ih =>
      intro ps cache st dIdx
      cases ps with
      | nil =>
          refine ⟨[], by simp [resolveList, pure_def, M.pure], rfl,
            List.nodup_nil, by simp [invokesOf], by simp [invokesOf], ?_⟩
          intro out hout
          have hout2 : (([], cache) : List PyVal × List (Nat × PyVal)) = out :=
            Except.ok.inj hout
          subst hout2
          refine ⟨fun k w hk => hk, ?_, fun k hk _ => hk⟩
          intro q hq
          simp [invokesOf] at hq
      | cons p rest =>
          cases hcl : cache.lookup p with
          | some v =>
              have hstep : (resolveList env dIdx (fuel + 1) (p :: rest) cache) st
                  = ((resolveList env dIdx fuel rest cache) >>= fun x =>
                      (Pure.pure (v :: x.1, x.2) : M _)) st := by
                simp only [resolveList, hcl]
              obtain ⟨Δ, ht, hd, hnd, hc0, hrk, hok⟩ := ih rest cache st dIdx
              rcases hrest : (resolveList env dIdx fuel rest cache) st with ⟨r1, st1⟩
              rw [hrest] at ht hd hok
              cases r1 with
              | error e =>
                  have hfin : (resolveList env dIdx (fuel + 1) (p :: rest) cache) st
                      = (.error e, st1) := by
                    rw [hstep]
                    exact bind_error hrest
                  refine ⟨Δ, by rw [hfin]; exact ht, by rw [hfin]; exact hd, hnd,
                    hc0, ?_, ?_⟩
                  · intro q hq
                    obtain ⟨x, hx, hle⟩ := hrk q hq
                    exact ⟨x, List.mem_cons_of_mem _ hx, hle⟩
                  · intro out hout
                    rw [hfin] at hout
                    simp at hout
              | ok out1 =>
                  have hfin : (resolveList env dIdx (fuel + 1) (p :: rest) cache) st
                      = (.ok (v :: out1.1, out1.2), st1) := by
                    rw [hstep]
                    exact (bind_ok hrest).trans rfl
                  refine ⟨Δ, by rw [hfin]; exact ht, by rw [hfin]; exact hd, hnd,
                    hc0, ?_, ?_⟩
                  · intro q hq
                    obtain ⟨x, hx, hle⟩ := hrk q hq
                    exact ⟨x, List.mem_cons_of_mem _ hx, hle⟩
                  · intro out hout
                    rw [hfin] at hout
                    have hout2 : ((v :: out1.1, out1.2) :
                        List PyVal × List (Nat × PyVal)) = out :=
                      Except.ok.inj hout
                    obtain ⟨hp1, hp2, hp3⟩ := hok out1 rfl
                    subst hout2
                    exact ⟨hp1, hp2, hp3⟩
          | none =>
              have hstep : (resolveList env dIdx (fuel + 1) (p :: rest) cache) st
                  = ((resolveList env dIdx fuel (env p).deps cache) >>= fun x =>
                      emit (.invoke p) >>= fun _ =>
                      producerResult dIdx (env p).kind >>= fun v =>
                      (resolveList env dIdx fuel rest (x.2 ++ [(p, v)])) >>= fun y =>
                      (Pure.pure (v :: y.1, y.2) : M _)) st := by
                simp only [resolveList, hcl]
              obtain ⟨Δ₁, ht1, hd1, hnd1, hc01, hrk1, hok1⟩ :=
                ih (env p).deps cache st dIdx
              rcases hsub : (resolveList env dIdx fuel (env p).deps cache) st with
                ⟨rs, st1⟩
              rw [hsub] at ht1 hd1 hok1
              have hlt1 : ∀ q ∈ invokesOf Δ₁, rank q < rank p := by
                intro q hq
                obtain ⟨x, hx, hle⟩ := hrk1 q hq
                exact lt_of_le_of_lt hle (hrank p x hx)
              have hpnotin1 : p ∉ invokesOf Δ₁ := fun hmem =>
                absurd (hlt1 p hmem) (lt_irrefl _)
              cases rs with
              | error e =>
                  have hfin : (resolveList env dIdx (fuel + 1) (p :: rest) cache) st
                      = (.error e, st1) := by
                    rw [hstep]
                    exact bind_error hsub
                  refine ⟨Δ₁, by rw [hfin]; exact ht1, by rw [hfin]; exact hd1,
                    hnd1, hc01, ?_, ?_⟩
                  · intro q hq
                    exact ⟨p, List.mem_cons_self _ _, le_of_lt (hlt1 q hq)⟩
                  · intro out hout
                    rw [hfin] at hout
                    simp at hout
              | ok out1 =>
                  obtain ⟨hpres1, hcache1, hdom1⟩ := hok1 out1 rfl
                  have hemit : (emit (Event.invoke p)) st1
                      = (.ok (), { st1 with trace := st1.trace ++ [Event.invoke p] }) :=
                    rfl
                  obtain ⟨Δp, htp, hdp, hip⟩ :=
                    producerResult_parts dIdx (env p).kind
                      { st1 with trace := st1.trace ++ [Event.invoke p] }
                  rcases hpr : (producerResult dIdx (env p).kind)
                      { st1 with trace := st1.trace ++ [Event.invoke p] } with ⟨rp, st3⟩
                  rw [hpr] at htp hdp
                  have hinv1 : invokesOf (Δ₁ ++ [Event.invoke p] ++ Δp)
                      = invokesOf Δ₁ ++ [p] := by
                    rw [invokesOf_append, invokesOf_append, hip]
                    simp [invokesOf]
                  cases rp with
                  | error e =>
                      have hfin : (resolveList env dIdx (fuel + 1) (p :: rest) cache)
                          st = (.error e, st3) := by
                        rw [hstep, bind_ok hsub, bind_ok hemit]
                        exact bind_error hpr
                      refine ⟨Δ₁ ++ [Event.invoke p] ++ Δp, ?_, ?_, ?_, ?_, ?_, ?_⟩
                      · rw [hfin]
                        show st3.trace = _
                        rw [htp]
                        show (st1.trace ++ [Event.invoke p]) ++ Δp = _
                        rw [ht1]
                        simp [List.append_assoc]
                      · rw [hfin]
                        show st3.depsList = _
                        rw [hdp]
                        exact hd1
                      · rw [hinv1]
                        rw [List.nodup_append]
                        refine ⟨hnd1, List.nodup_singleton _, ?_⟩
                        intro a ha hb
                        simp only [List.mem_singleton] at hb
                        subst hb
                        exact hpnotin1 ha
                      · intro q hq
                        rw [hinv1] at hq
                        rcases List.mem_append.mp hq with hq | hq
                        · exact hc01 q hq
                        · simp only [List.mem_singleton] at hq
                          subst hq
                          exact hcl
                      · intro q hq
                        rw [hinv1] at hq
                        rcases List.mem_append.mp hq with hq | hq
                        · exact ⟨p, List.mem_cons_self _ _, le_of_lt (hlt1 q hq)⟩
                        · simp only [List.mem_singleton] at hq
                          subst hq
                          exact ⟨q, List.mem_cons_self _ _, le_refl _⟩
                      · intro out hout
                        rw [hfin] at hout
                        simp at hout
                  | ok v =>
                      obtain ⟨Δ₂, ht2, hd2, hnd2, hc02, hrk2, hok2⟩ :=
                        ih rest (out1.2 ++ [(p, v)]) st3 dIdx
                      rcases hrest2 : (resolveList env dIdx fuel rest
                          (out1.2 ++ [(p, v)])) st3 with ⟨rr, st4⟩
                      rw [hrest2] at ht2 hd2 hok2
                      have hinvall : invokesOf (Δ₁ ++ [Event.invoke p] ++ Δp ++ Δ₂)
                          = (invokesOf Δ₁ ++ [p]) ++ invokesOf Δ₂ := by
                        rw [invokesOf_append, hinv1]
                      have hpnotin2 : p ∉ invokesOf Δ₂ := by
                        intro hmem
                        have h := hc02 p hmem
                        rw [lookupAppend] at h
                        cases hl : out1.2.lookup p with
                        | some w => rw [hl] at h; simp [Option.orElse] at h
                        | none =>
                            rw [hl] at h
                            simp [Option.orElse, lookup_single] at h
                      have hdisj12 : ∀ q ∈ invokesOf Δ₁, q ∉ invokesOf Δ₂ := by
                        intro q hq hq2
                        obtain ⟨w, hw⟩ := hcache1 q hq
                        have h := hc02 q hq2
                        rw [lookupAppend, hw] at h
                        simp [Option.orElse] at h
                      have hc2init : ∀ q ∈ invokesOf Δ₂, cache.lookup q = none := by
                        intro q hq
                        have h := hc02 q hq
                        cases hcq : cache.lookup q with
                        | none => rfl
                        | some w =>
                            have hw := hpres1 q w hcq
                            rw [lookupAppend, hw] at h
                            simp [Option.orElse] at h
                      -- both final outcomes share state st4
                      have hfin : ∀ res,
                          ((resolveList env dIdx fuel rest (out1.2 ++ [(p, v)])) st3
                            = (res, st4)) →
                          (resolveList env dIdx (fuel + 1) (p :: rest) cache) st
                            = (match res with
                               | .ok y => (.ok (v :: y.1, y.2), st4)
                               | .error e => (.error e, st4)) := by
                        intro res hres
                        rw [hstep, bind_ok hsub, bind_ok hemit, bind_ok hpr]
                        cases res with
                        | ok y => exact (bind_ok hres).trans rfl
                        | error e => exact bind_error hres
                      have hfin2 := hfin rr hrest2
                      have htrace4 : st4.trace
                          = st.trace ++ (Δ₁ ++ [Event.invoke p] ++ Δp ++ Δ₂) := by
                        rw [ht2, htp]
                        show ((st1.trace ++ [Event.invoke p]) ++ Δp) ++ Δ₂ = _
                        rw [ht1]
                        simp [List.append_assoc]
                      have hdeps4 : st4.depsList = st.depsList := by
                        rw [hd2, hdp]
                        exact hd1
                      refine ⟨Δ₁ ++ [Event.invoke p] ++ Δp ++ Δ₂, ?_, ?_, ?_, ?_,
                        ?_, ?_⟩
                      · rw [hfin2]
                        cases rr with
                        | ok y => exact htrace4
                        | error e => exact htrace4
                      · rw [hfin2]
                        cases rr with
                        | ok y => exact hdeps4
                        | error e => exact hdeps4
                      · rw [hinvall]
                        have hrearrange : (invokesOf Δ₁ ++ [p]) ++ invokesOf Δ₂
                            = invokesOf Δ₁ ++ (p :: invokesOf Δ₂) := by
                          simp
                        rw [hrearrange, List.nodup_append]
                        refine ⟨hnd1, ?_, ?_⟩
                        · rw [List.nodup_cons]
                          exact ⟨hpnotin2, hnd2⟩
                        · intro a ha hb
                          rcases List.mem_cons.mp hb with hb | hb
                          · subst hb
                            exact hpnotin1 ha
                          · exact hdisj12 a ha hb
                      · intro q hq
                        rw [hinvall] at hq
                        rcases List.mem_append.mp hq with hq | hq
                        · rcases List.mem_append.mp hq with hq | hq
                          · exact hc01 q hq
                          · simp only [List.mem_singleton] at hq
                            subst hq
                            exact hcl
                        · exact hc2init q hq
                      · intro q hq
                        rw [hinvall] at hq
                        rcases List.mem_append.mp hq with hq | hq
                        · rcases List.mem_append.mp hq with hq | hq
                          · exact ⟨p, List.mem_cons_self _ _, le_of_lt (hlt1 q hq)⟩
                          · simp only [List.mem_singleton] at hq
                            subst hq
                            exact ⟨q, List.mem_cons_self _ _, le_refl _⟩
                        · obtain ⟨x, hx, hle⟩ := hrk2 q hq
                          exact ⟨x, List.mem_cons_of_mem _ hx, hle⟩
                      · intro out hout
                        rw [hfin2] at hout
                        cases rr with
                        | error e => simp at hout
                        | ok y =>
                            have hout2 : ((v :: y.1, y.2) :
                                List PyVal × List (Nat × PyVal)) = out :=
                              Except.ok.inj hout
                            obtain ⟨hpres2, hcache2, hdom2⟩ := hok2 y rfl
                            subst hout2
                            have hm : ∀ k w, (out1.2 ++ [(p, v)]).lookup k = some w →
                                y.2.lookup k = some w := hpres2
                            refine ⟨?_, ?_, ?_⟩
                            · intro k w hk
                              apply hm
                              rw [lookupAppend, hpres1 k w hk]
                              rfl
                            · intro q hq
                              rw [hinvall] at hq
                              rcases List.mem_append.mp hq with hq | hq
                              · rcases List.mem_append.mp hq with hq | hq
                                · obtain ⟨w, hw⟩ := hcache1 q hq
                                  refine ⟨w, hm q w ?_⟩
                                  rw [lookupAppend, hw]
                                  rfl
                                · simp only [List.mem_singleton] at hq
                                  subst hq
                                  refine ⟨v, hm q v ?_⟩
                                  rw [lookupAppend,
                                    hdom1 q hcl hpnotin1, lookup_single]
                                  simp [Option.orElse]
                              · exact hcache2 q hq
                            · intro k hk hknot
                              rw [hinvall] at hknot
                              have hk1 : k ∉ invokesOf Δ₁ := fun hc =>
                                hknot (List.mem_append.mpr (Or.inl
                                  (List.mem_append.mpr (Or.inl hc))))
                              have hkp : k ≠ p := fun hc => by
                                subst hc
                                exact hknot (List.mem_append.mpr (Or.inl
                                  (List.mem_append.mpr (Or.inr (by simp)))))
                              have hk2 : k ∉ invokesOf Δ₂ := fun hc =>
                                hknot (List.mem_append.mpr (Or.inr hc))
                              apply hdom2 k _ hk2
                              rw [lookupAppend, hdom1 k hk hk1, lookup_single]
                              simp [Option.orElse, hkp]

theorem cleanupPass_runFrom : ∀ (gs : List Nat) (st : St),
    (cleanupPass gs) st
      = (.ok (), { st with gens := (cleanupSim st.gens gs).2,
                           trace := st.trace ++ (cleanupSim st.gens gs).1 }) := by
  intro gs
  induction gs with
  | nil =>
      intro st
      simp [cleanupPass, cleanupSim, pure_def, M.pure]
  | cons g gs ih =>
      intro st
      have hstep : (cleanupPass (g :: gs)) st
          = ((nextSwallow g) >>= fun _ => cleanupPass gs) st := rfl
      by_cases h0 : ((st.gens.lookup g).getD ⟨2, .pynone⟩).pos = 0
      · have hns : (nextSwallow g) st = (.ok (),
            { st with
               gens := st.gens.map fun p => if p.1 = g then
                 (g, ⟨1, ((st.gens.lookup g).getD ⟨2, .pynone⟩).val⟩) else p
               trace := st.trace ++ [Event.nextCall g] }) := by
          simp [nextSwallow, nextGen, emit, M.modify, M.get, setGen, bind_def,
            M.bind, pure_def, M.pure, St.genOf, h0]
        rw [hstep, bind_ok hns, ih]
        simp [cleanupSim, h0, List.append_assoc]
      · by_cases h1 : ((st.gens.lookup g).getD ⟨2, .pynone⟩).pos = 1
        · have hns : (nextSwallow g) st = (.ok (),
              { st with
                 gens := st.gens.map fun p => if p.1 = g then
                   (g, ⟨2, ((st.gens.lookup g).getD ⟨2, .pynone⟩).val⟩) else p
                 trace := st.trace ++ [Event.nextCall g, Event.teardown g] }) := by
            simp [nextSwallow, nextGen, emit, M.modify, M.get, setGen, bind_def,
              M.bind, pure_def, M.pure, St.genOf, h0, h1]
          rw [hstep, bind_ok hns, ih]
          simp [cleanupSim, h0, h1, List.append_assoc]
        · have hns : (nextSwallow g) st = (.ok (),
              { st with trace := st.trace ++ [Event.nextCall g] }) := by
            simp [nextSwallow, nextGen, emit, M.modify, M.get, setGen, bind_def,
              M.bind, pure_def, M.pure, St.genOf, h0, h1]
          rw [hstep, bind_ok hns, ih]
          simp [cleanupSim, h0, h1, List.append_assoc]

theorem cleanupSim_nextCalls : ∀ (gs : List Nat) (gens : List (Nat × GenInst)),
    nextCallsOf (cleanupSim gens gs).1 = gs := by
  intro gs
  induction gs with
  | nil => intro gens; simp [cleanupSim, nextCallsOf]
  | cons g gs ih =>
      intro gens
      by_cases h0 : ((gens.lookup g).getD ⟨2, .pynone⟩).pos = 0
      · simp [cleanupSim, h0, nextCallsOf, List.filterMap_cons] at ih ⊢
        exact ih _
      · by_cases h1 : ((gens.lookup g).getD ⟨2, .pynone⟩).pos = 1
        · simp [cleanupSim, h0, h1, nextCallsOf, List.filterMap_cons] at ih ⊢
          exact ih _
        · simp [cleanupSim, h0, h1, nextCallsOf, List.filterMap_cons] at ih ⊢
          exact ih _

theorem closeWrapped_ok_run (v : PyVal) (st : St) :
    (closeWrappedRun (.asyncFn (.ok v))) st
      = (.ok v,
         { st with
            gens := (cleanupSim st.gens st.depsList).2
            trace := (st.trace ++ [Event.endpointRun])
              ++ (cleanupSim st.gens st.depsList).1 }) := by
  have h1 : (epRun (EpBeh.ok v)) st
      = (.ok v, { st with trace := st.trace ++ [Event.endpointRun] }) := rfl
  show ((epRun (EpBeh.ok v)) >>= fun r => M.get >>= fun st' =>
      cleanupPass st'.depsList >>= fun _ => (Pure.pure r : M PyVal)) st = _
  rw [bind_ok h1]
  have h2 : M.get { st with trace := st.trace ++ [Event.endpointRun] }
      = (.ok { st with trace := st.trace ++ [Event.endpointRun] },
         { st with trace := st.trace ++ [Event.endpointRun] }) := rfl
  rw [bind_ok h2]
  rw [bind_ok (cleanupPass_runFrom _ _)]
  rfl

theorem closeWrapped_raises_run (e : Exc) (st : St) :
    (closeWrappedRun (.asyncFn (.raises e))) st
      = (.error e, { st with trace := st.trace ++ [Event.endpointRun] }) := by
  have h1 : (epRun (EpBeh.raises e)) st
      = (.error e, { st with trace := st.trace ++ [Event.endpointRun] }) := rfl
  show ((epRun (EpBeh.raises e)) >>= fun r => M.get >>= fun st' =>
      cleanupPass st'.depsList >>= fun _ => (Pure.pure r : M PyVal)) st = _
  exact bind_error h1

/-- C2 (amended): every registered cleanup handle is advanced exactly
once, in registration order, after the endpoint call returns
successfully — exhaustion signals are swallowed — but when the endpoint
raises, the wrapper short-circuits and no cleanup handle is advanced at
all (there is no try/finally around the await). -/
theorem c2_amended (v : PyVal) (e : Exc) (st : St) :
    ((closeWrappedRun (.asyncFn (.ok v))) st
        = (.ok v,
           { st with
              gens := (cleanupSim st.gens st.depsList).2
              trace := (st.trace ++ [Event.endpointRun])
                ++ (cleanupSim st.gens st.depsList).1 }) ∧
      nextCallsOf (cleanupSim st.gens st.depsList).1 = st.depsList) ∧
    ((closeWrappedRun (.asyncFn (.raises e))) st
        = (.error e, { st with trace := st.trace ++ [Event.endpointRun] })) :=
  ⟨⟨closeWrapped_ok_run v st, cleanupSim_nextCalls st.depsList st.gens⟩,
   closeWrapped_raises_run e st⟩

theorem resolveList_parts (env : EnvT) :
    ∀ (fuel : Nat) (ps : List Nat) (cache : List (Nat × PyVal)) (st : St)
      (dIdx : Nat),
      ∃ Δ, ((resolveList env dIdx fuel ps cache) st).2.trace = st.trace ++ Δ ∧
           ((resolveList env dIdx fuel ps cache) st).2.depsList = st.depsList := by
  intro fuel
  induction fuel with
  | zero =>
      intro ps cache st dIdx
      exact ⟨[], by simp [resolveList, M.throw], rfl⟩
  | succ fuel ih =>
      intro ps cache st dIdx
      cases ps with
      | nil => exact ⟨[], by simp [resolveList, pure_def, M.pure], rfl⟩
      | cons p rest =>
          cases hcl : cache.lookup p with
          | some v =>
              have hstep : (resolveList env dIdx (fuel + 1) (p :: rest) cache) st
                  = ((resolveList env dIdx fuel rest cache) >>= fun x =>
                      (Pure.pure (v :: x.1, x.2) : M _)) st := by
                simp only [resolveList, hcl]
              obtain ⟨Δ, ht, hd⟩ := ih rest cache st dIdx
              rcases hrest : (resolveList env dIdx fuel rest cache) st with ⟨r1, st1⟩
              rw [hrest] at ht hd
              cases r1 with
              | error e =>
                  refine ⟨Δ, ?_, ?_⟩ <;> rw [hstep, bind_error hrest]
                  · exact ht
                  · exact hd
              | ok out1 =>
                  refine ⟨Δ, ?_, ?_⟩ <;> rw [hstep, (bind_ok hrest).trans rfl]
                  · exact ht
                  · exact hd
          | none =>
              have hstep : (resolveList env dIdx (fuel + 1) (p :: rest) cache) st
                  = ((resolveList env dIdx fuel (env p).deps cache) >>= fun x =>
                      emit (.invoke p) >>= fun _ =>
                      producerResult dIdx (env p).kind >>= fun v =>
                      (resolveList env dIdx fuel rest (x.2 ++ [(p, v)])) >>= fun y =>
                      (Pure.pure (v :: y.1, y.2) : M _)) st := by
                simp only [resolveList, hcl]
              obtain ⟨Δ₁, ht1, hd1⟩ := ih (env p).deps cache st dIdx
              rcases hsub : (resolveList env dIdx fuel (env p).deps cache) st with
                ⟨rs, st1⟩
              rw [hsub] at ht1 hd1
              cases rs with
              | error e =>
                  refine ⟨Δ₁, ?_, ?_⟩ <;> rw [hstep, bind_error hsub]
                  · exact ht1
                  · exact hd1
              | ok out1 =>
                  have hemit : (emit (Event.invoke p)) st1
                      = (.ok (), { st1 with trace := st1.trace ++ [Event.invoke p] }) :=
                    rfl
                  obtain ⟨Δp, htp, hdp, _⟩ :=
                    producerResult_parts dIdx (env p).kind
                      { st1 with trace := st1.trace ++ [Event.invoke p] }
                  rcases hpr : (producerResult dIdx (env p).kind)
                      { st1 with trace := st1.trace ++ [Event.invoke p] } with ⟨rp, st3⟩
                  rw [hpr] at htp hdp
                  have ht3 : st3.trace = st.trace ++ (Δ₁ ++ [Event.invoke p] ++ Δp) := by
                    rw [htp]
                    show (st1.trace ++ [Event.invoke p]) ++ Δp = _
                    rw [ht1]
                    simp [List.append_assoc]
                  have hd3 : st3.depsList = st.depsList := by
                    rw [hdp]
                    exact hd1
                  cases rp with
                  | error e =>
                      refine ⟨Δ₁ ++ [Event.invoke p] ++ Δp, ?_, ?_⟩ <;>
                        rw [hstep, bind_ok hsub, bind_ok hemit, bind_error hpr]
                      · exact ht3
                      · exact hd3
                  | ok v =>
                      obtain ⟨Δ₂, ht2, hd2⟩ := ih rest (out1.2 ++ [(p, v)]) st3 dIdx
                      rcases hrest2 : (resolveList env dIdx fuel rest
                          (out1.2 ++ [(p, v)])) st3 with ⟨rr, st4⟩
                      rw [hrest2] at ht2 hd2
                      have ht4 : st4.trace
                          = st.trace ++ (Δ₁ ++ [Event.invoke p] ++ Δp ++ Δ₂) := by
                        rw [ht2, ht3]
                        simp [List.append_assoc]
                      have hd4 : st4.depsList = st.depsList := by
                        rw [hd2]
                        exact hd3
                      cases rr with
                      | error e =>
                          refine ⟨Δ₁ ++ [Event.invoke p] ++ Δp ++ Δ₂, ?_, ?_⟩ <;>
                            rw [hstep, bind_ok hsub, bind_ok hemit, bind_ok hpr,
                              bind_error hrest2]
                          · exact ht4
                          · exact hd4
                      | ok y =>
                          refine ⟨Δ₁ ++ [Event.invoke p] ++ Δp ++ Δ₂, ?_, ?_⟩ <;>
                            rw [hstep, bind_ok hsub, bind_ok hemit, bind_ok hpr,
                              (bind_ok hrest2).trans rfl]
                          · exact ht4
                          · exact hd4

theorem partsOK_pure {α : Type} (a : α) : PartsOK (Pure.pure a : M α) := by
  intro st
  exact ⟨[], [], by simp [pure_def, M.pure], by simp [pure_def, M.pure]⟩

theorem partsOK_throw {α : Type} (e : Exc) : PartsOK (M.throw e : M α) := by
  intro st
  exact ⟨[], [], by simp [M.throw], by simp [M.throw]⟩

theorem partsOK_bind {α β : Type} {x : M α} {f : α → M β}
    (hx : PartsOK x) (hf : ∀ a, PartsOK (f a)) : PartsOK (x >>= f) := by
  intro st
  obtain ⟨Δt, Δd, ht, hd⟩ := hx st
  rcases hrun : x st with ⟨r, st1⟩
  rw [hrun] at ht hd
  cases r with
  | error e =>
      refine ⟨Δt, Δd, ?_, ?_⟩ <;> rw [bind_error hrun]
      · exact ht
      · exact hd
  | ok a =>
      obtain ⟨Δt2, Δd2, ht2, hd2⟩ := hf a st1
      refine ⟨Δt ++ Δt2, Δd ++ Δd2, ?_, ?_⟩ <;> rw [bind_ok hrun]
      · rw [ht2, ht]
        simp [List.append_assoc]
      · rw [hd2, hd]
        simp [List.append_assoc]

theorem partsOK_extendDepsList (gids : List Nat) :
    PartsOK (extendDepsList gids) := by
  intro st
  exact ⟨[], gids, by simp [extendDepsList, M.modify], rfl⟩

theorem partsOK_forceNext (g : Nat) : PartsOK (forceNext g) := by
  intro st
  obtain ⟨Δ, ht, hd, _⟩ := forceNext_parts g st
  exact ⟨Δ, [], ht, by simp [hd]⟩

theorem partsOK_dependsCall (env : EnvT) (fuel dIdx pid : Nat) :
    PartsOK (dependsCall env fuel dIdx pid) := by
  intro st
  obtain ⟨Δ, ht, hd⟩ := resolveList_parts env fuel [pid] [] st dIdx
  rcases hrun : (resolveList env dIdx fuel [pid] []) st with ⟨r1, st1⟩
  rw [hrun] at ht hd
  cases r1 with
  | error e =>
      have hfin : (dependsCall env fuel dIdx pid) st = (.error e, st1) := by
        show (((resolveList env dIdx fuel [pid] []) >>= fun x =>
            (Pure.pure (x.1.headD .pynone) : M PyVal)) >>= fun v =>
            readDependsList dIdx >>= fun l => (Pure.pure (v, l) : M _)) st = _
        rw [bind_error (bind_error hrun)]
      refine ⟨Δ, [], ?_, ?_⟩ <;> rw [hfin]
      · exact ht
      · simpa using hd
  | ok out =>
      have h1 : ((resolveList env dIdx fuel [pid] []) >>= fun x =>
          (Pure.pure (x.1.headD .pynone) : M PyVal)) st
          = (.ok (out.1.headD .pynone), st1) := (bind_ok hrun).trans rfl
      have hfin : (dependsCall env fuel dIdx pid) st
          = (.ok (out.1.headD .pynone,
              (st1.dependsLists.lookup dIdx).getD []), st1) := by
        show (((resolveList env dIdx fuel [pid] []) >>= fun x =>
            (Pure.pure (x.1.headD .pynone) : M PyVal)) >>= fun v =>
            readDependsList dIdx >>= fun l => (Pure.pure (v, l) : M _)) st = _
        rw [bind_ok h1]
        rfl
      refine ⟨Δ, [], ?_, ?_⟩ <;> rw [hfin]
      · exact ht
      · simpa using hd

theorem partsOK_getDepsResults (env : EnvT) (fuel : Nat) :
    ∀ (eps : List EndpointDep),
      PartsOK (getDependenciesResults env fuel eps) := by
  intro eps
  induction eps with
  | nil =>
      intro st
      exact ⟨[], [], by simp [getDependenciesResults, pure_def, M.pure],
        by simp [getDependenciesResults, pure_def, M.pure]⟩
  | cons d rest ih =>
      show PartsOK ((dependsCall env fuel d.dIdx d.pid) >>= fun x =>
        ((if x.2.isEmpty then (Pure.pure () : M Unit) else extendDepsList x.2)
          >>= fun _ =>
          match x.1 with
          | .genref gid =>
              extendDepsList [gid] >>= fun _ =>
              forceNext gid >>= fun w =>
              getDependenciesResults env fuel rest >>= fun tail =>
              (Pure.pure ((d.param, w) :: tail) : M _)
          | v =>
              getDependenciesResults env fuel rest >>= fun tail =>
              (Pure.pure ((d.param, v) :: tail) : M _)))
      apply partsOK_bind (partsOK_dependsCall env fuel d.dIdx d.pid)
      intro x
      apply partsOK_bind
      · by_cases hemp : x.2.isEmpty
        · rw [if_pos hemp]
          exact partsOK_pure ()
        · rw [if_neg hemp]
          exact partsOK_extendDepsList x.2
      · intro _
        cases x.1 with
        | genref gid =>
            exact partsOK_bind (partsOK_extendDepsList [gid]) fun _ =>
              partsOK_bind (partsOK_forceNext gid) fun w =>
              partsOK_bind ih fun tail => partsOK_pure _
        | pynone => exact partsOK_bind ih fun tail => partsOK_pure _
        | pynat n => exact partsOK_bind ih fun tail => partsOK_pure _
        | pystr s => exact partsOK_bind ih fun tail => partsOK_pure _
        | pymsg c dt => exact partsOK_bind ih fun tail => partsOK_pure _
        | pydict dt => exact partsOK_bind ih fun tail => partsOK_pure _
        | pymodel c dt => exact partsOK_bind ih fun tail => partsOK_pure _

/-- C2 counterexample: the claim says registered cleanup handles run on
unexpected exception alike; with a generator-shaped dependency registered
and an endpoint that raises, the call ends with the raised exception, the
handle is registered (still cached) but no teardown ran and the handle
was never advanced after the endpoint. -/
theorem c2_counterexample :
    ((oneCall envGen 10 epsGen (.asyncFn (.raises (.exc [42] "boom"))))
        St.init).1 = .error (.exc [42] "boom") ∧
    ((oneCall envGen 10 epsGen (.asyncFn (.raises (.exc [42] "boom"))))
        St.init).2.depsList = [0] ∧
    ((oneCall envGen 10 epsGen (.asyncFn (.raises (.exc [42] "boom"))))
        St.init).2.trace
      = [.invoke 1, .nextCall 0, .endpointRun] ∧
    teardownsOf ((oneCall envGen 10 epsGen
        (.asyncFn (.raises (.exc [42] "boom")))) St.init).2.trace = [] := by
  refine ⟨by decide, by decide, by decide, by decide⟩

/-- C3 counterexample: the claim says a producer referenced by two
parameters executes exactly once per call; with two parameters wrapping
producer 7, resolution invokes producer 7 twice (once per parameter),
though both parameters do receive its value. -/
theorem c3_counterexample :
    ((getDependenciesResults envShared 10 epsShared) St.init).2.trace
      = [.invoke 7, .invoke 7] ∧
    (((getDependenciesResults envShared 10 epsShared) St.init).2.trace.count
        (Event.invoke 7)) = 2 ∧
    ((getDependenciesResults envShared 10 epsShared) St.init).1
      = .ok [("a", .pystr "shared"), ("b", .pystr "shared")] := by
  refine ⟨by decide, by decide, by decide⟩

/-- C3 (amended): within the resolution of a single endpoint parameter
(`Depends.__call__` resolves with a fresh cache), a given producer is
invoked at most once however many times it is referenced in the nested
dependency graph (diamond sharing via the per-resolution cache); the
cache is not shared across parameters, so a producer referenced by two
parameters executes once per referencing parameter. -/
theorem c3_amended (env : EnvT) (rank : Nat → Nat)
    (hrank : ∀ p q, q ∈ (env p).deps → rank q < rank p)
    (fuel dIdx pid : Nat) (st : St) :
    ∃ Δ, ((dependsCall env fuel dIdx pid) st).2.trace = st.trace ++ Δ ∧
      (invokesOf Δ).Nodup := by
  obtain ⟨Δ, ht, _, hnd, _, _, _⟩ :=
    resolveList_spec env rank hrank fuel [pid] [] st dIdx
  rcases hrun : (resolveList env dIdx fuel [pid] []) st with ⟨r1, st1⟩
  rw [hrun] at ht
  refine ⟨Δ, ?_, hnd⟩
  cases r1 with
  | error e =>
      have hfin : (dependsCall env fuel dIdx pid) st = (.error e, st1) := by
        show (((resolveList env dIdx fuel [pid] []) >>= fun x =>
            (Pure.pure (x.1.headD .pynone) : M PyVal)) >>= fun v =>
            readDependsList dIdx >>= fun l => (Pure.pure (v, l) : M _)) st = _
        rw [bind_error (bind_error hrun)]
      rw [hfin]
      exact ht
  | ok out =>
      have h1 : ((resolveList env dIdx fuel [pid] []) >>= fun x =>
          (Pure.pure (x.1.headD .pynone) : M PyVal)) st
          = (.ok (out.1.headD .pynone), st1) := (bind_ok hrun).trans rfl
      have hfin : (dependsCall env fuel dIdx pid) st
          = (.ok (out.1.headD .pynone,
              (st1.dependsLists.lookup dIdx).getD []), st1) := by
        show (((resolveList env dIdx fuel [pid] []) >>= fun x =>
            (Pure.pure (x.1.headD .pynone) : M PyVal)) >>= fun v =>
            readDependsList dIdx >>= fun l => (Pure.pure (v, l) : M _)) st = _
        rw [bind_ok h1]
        rfl
      rw [hfin]
      exact ht

/-- C3 witness: the cycle-free fixture environment at a concrete call. -/
theorem c3_amended_witness :
    ∃ Δ, ((dependsCall envShared 10 0 7) St.init).2.trace
        = St.init.trace ++ Δ ∧
      (invokesOf Δ).Nodup := by
  refine c3_amended envShared (fun _ => 0) ?_ 10 0 7 St.init
  intro p q hq
  by_cases h7 : p = 7 <;> simp [envShared, h7] at hq

/-- C4 counterexample: the claim says no cleanup handle registered during
the first call is still held when the second call begins and the second
call touches only its own handles; after the first call the handle list
still holds the first call's generator, and the second call's cleanup
advances it again — twice, because the `Depends` instance returns its
accumulated list which is re-extended. -/
theorem c4_counterexample :
    ((oneCall envGen 10 epsGen (.asyncFn (.ok (.pystr "done")))) St.init).2
      = c4st1 ∧
    c4st1.depsList = [0] ∧
    (nextCallsOf ((((oneCall envGen 10 epsGen (.asyncFn (.ok (.pystr "done"))))
        c4st1).2.trace).drop c4st1.trace.length)).count 0 = 2 ∧
    ((oneCall envGen 10 epsGen (.asyncFn (.ok (.pystr "done")))) c4st1).2.depsList
      = [0, 0, 1] := by
  refine ⟨by decide, by decide, by decide, by decide⟩

/-- C4 (amended): dependency-resolution caching is per call, but the
cleanup-handle lists live on the per-method `Depends`/`Dependencies`
objects and are never cleared: handles held when a call begins are still
held when it ends (the lists only grow), and a successful call's cleanup
phase advances every handle already held at call start in addition to the
handles registered during the call. -/
theorem c4_amended (env : EnvT) (fuel : Nat) (eps : List EndpointDep)
    (v : PyVal) (st : St) :
    (∃ Δd, ((oneCall env fuel eps (.asyncFn (.ok v))) st).2.depsList
        = st.depsList ++ Δd) ∧
    (∀ out, ((oneCall env fuel eps (.asyncFn (.ok v))) st).1 = .ok out →
       ∀ g, st.depsList.count g
         ≤ (nextCallsOf ((((oneCall env fuel eps (.asyncFn (.ok v))) st).2.trace).drop
             st.trace.length)).count g) := by
  obtain ⟨Δt, Δd, ht, hd⟩ := partsOK_getDepsResults env fuel eps st
  rcases hg : (getDependenciesResults env fuel eps) st with ⟨rg, st1⟩
  rw [hg] at ht hd
  simp only [] at ht hd
  have hshow : (oneCall env fuel eps (.asyncFn (.ok v))) st
      = ((getDependenciesResults env fuel eps) >>= fun _ =>
         closeWrappedRun (.asyncFn (.ok v))) st := rfl
  cases rg with
  | error e =>
      have hfin : (oneCall env fuel eps (.asyncFn (.ok v))) st
          = (.error e, st1) := by
        rw [hshow]
        exact bind_error hg
      constructor
      · exact ⟨Δd, by rw [hfin]; exact hd⟩
      · intro out hout
        rw [hfin] at hout
        simp at hout
  | ok res =>
      have hrun := closeWrapped_ok_run v st1
      have hnext := cleanupSim_nextCalls st1.depsList st1.gens
      have hfin : (oneCall env fuel eps (.asyncFn (.ok v))) st
          = (.ok v, { st1 with
              gens := (cleanupSim st1.gens st1.depsList).2
              trace := (st1.trace ++ [Event.endpointRun])
                ++ (cleanupSim st1.gens st1.depsList).1 }) := by
        rw [hshow, bind_ok hg]
        exact hrun
      have ht1 : st1.trace = st.trace ++ Δt := ht
      have hd1 : st1.depsList = st.depsList ++ Δd := hd
      constructor
      · refine ⟨Δd, ?_⟩
        rw [hfin]
        exact hd1
      · intro out hout g
        rw [hfin]
        show st.depsList.count g ≤ (nextCallsOf
            (((st1.trace ++ [Event.endpointRun])
              ++ (cleanupSim st1.gens st1.depsList).1).drop
              st.trace.length)).count g
        have hform : (st1.trace ++ [Event.endpointRun])
            ++ (cleanupSim st1.gens st1.depsList).1
            = st.trace ++ (Δt ++ ([Event.endpointRun]
              ++ (cleanupSim st1.gens st1.depsList).1)) := by
          rw [ht1]
          simp [List.append_assoc]
        rw [hform, List.drop_left, nextCallsOf_append, nextCallsOf_append]
        have hone : nextCallsOf [Event.endpointRun] = [] := rfl
        rw [hone, hnext, hd1]
        simp only [List.nil_append, List.count_append]
        omega

/-- C4 witness: the fixture second call from the heap the first call
left behind. -/
theorem c4_amended_witness :
    (∃ Δd, ((oneCall envGen 10 epsGen (.asyncFn (.ok (.pystr "done")))) c4st1).2.depsList
        = c4st1.depsList ++ Δd) ∧
    c4st1.depsList.count 0
      ≤ (nextCallsOf ((((oneCall envGen 10 epsGen
          (.asyncFn (.ok (.pystr "done")))) c4st1).2.trace).drop
          c4st1.trace.length)).count 0 := by
  have h := c4_amended envGen 10 epsGen (.pystr "done") c4st1
  exact ⟨h.1, h.2 (.pystr "done") (by decide) 0⟩

/-- C1 counterexample: the claim says any exception raised while
resolving dependencies is caught by the exception-handling stage and no
exception crosses the dispatch boundary uncaught; with a producer that
raises, the full default chain (context middleware outermost, exception
middleware, method innermost) propagates the raw exception — which is
not an abort — out of the dispatch boundary. -/
theorem c1_counterexample :
    ((dispatchNotIterable envRaise 10 epsRaise baseExceptionHandlers
        (some ⟨55⟩) methodOkFix) (.pystr "req") .transport) St.init
      = (.error (.exc [42] "boom"), ⟨0, [], [], [], [.invoke 3]⟩) ∧
    (Exc.exc [42] "boom").isAbort = false := by
  refine ⟨by decide, by decide⟩

/-- C1 (amended): dependency resolution runs in the outermost wrapper,
before the context-binding and exception-handling stages, so an exception
raised while resolving dependencies crosses the dispatch boundary
uncaught and unchanged; Method execution is innermost, and once
dependency resolution succeeds and a descriptor is bound, no exception
escapes — whatever the method does, the call either completes or is
aborted with a status, provided the registered handlers themselves only
return or abort. -/
theorem c1_amended (env : EnvT) (fuel : Nat) (eps : List EndpointDep)
    (handlers : List (Nat × HandlerFn)) (descriptor : Option Descriptor)
    (d : Descriptor) (method : Call) (req : PyVal) (ctx : CtxVal) (st : St)
    (htame : TameHandlers handlers) :
    (∀ e st1, (getDependenciesResults env fuel eps) st = (.error e, st1) →
       ((dispatchNotIterable env fuel eps handlers descriptor method) req ctx) st
         = (.error e, st1)) ∧
    (∀ dres st1,
       (getDependenciesResults env fuel eps) st = (.ok dres, st1) →
       (∃ v, (((dispatchNotIterable env fuel eps handlers (some d) method)
           req ctx) st).1 = .ok v) ∨
       (∃ sc det, (((dispatchNotIterable env fuel eps handlers (some d) method)
           req ctx) st).1 = .error (.abortError sc det))) := by
  constructor
  · intro e st1 hg
    show ((getDependenciesResults env fuel eps) >>= fun dres =>
        (notIterableContextMw descriptor
          (notIterableExceptionMw handlers method)) req ctx dres) st = _
    rw [bind_error hg]
  · intro dres st1 hg
    have hstep : (((dispatchNotIterable env fuel eps handlers (some d) method)
        req ctx) st)
        = (M.tryCatch (method req (.controller d) dres)
            (handleException handlers req (.controller d))) st1 := by
      show ((getDependenciesResults env fuel eps) >>= fun dres =>
          (notIterableContextMw (some d)
            (notIterableExceptionMw handlers method)) req ctx dres) st = _
      rw [bind_ok hg]
      rfl
    rw [hstep]
    rcases hm : method req (.controller d) dres st1 with ⟨rm, st2⟩
    cases rm with
    | ok v =>
        left
        refine ⟨v, ?_⟩
        rw [M.tryCatch, hm]
    | error e =>
        right
        have hcatch : (M.tryCatch (method req (.controller d) dres)
            (handleException handlers req (.controller d))) st1
            = (handleException handlers req (.controller d) e) st2 := by
          rw [M.tryCatch, hm]
        rw [hcatch]
        by_cases hrpc : e.isRpcError = true
        · refine ⟨.unknown, e.pystr, ?_⟩
          rw [handleException, if_pos hrpc]
          rfl
        · rw [handleException, if_neg hrpc]
          cases hlk : handlers.lookup e.typeId with
          | none =>
              refine ⟨.unknown, e.pystr, ?_⟩
              rfl
          | some h =>
              rcases hh : h req (.controller d) e st2 with ⟨rh, st3⟩
              have htm := htame e.typeId h (mem_of_lookup hlk) req
                (.controller d) e st2
              rw [hh] at htm
              rcases htm with htm | ⟨sc, det, htm⟩
              · refine ⟨.unknown, e.pystr, ?_⟩
                simp only [] at htm
                have hh2 : h req (.controller d) e st2 = (.ok (), st3) := by
                  rw [hh]
                  cases rh with
                  | ok u => cases u; rfl
                  | error e2 => simp at htm
                show ((h req (.controller d) e >>= fun _ =>
                    M.throw (.abortError .unknown e.pystr)) st2).1 = _
                rw [bind_ok hh2]
                rfl
              · refine ⟨sc, det, ?_⟩
                simp only [] at htm
                have hh2 : h req (.controller d) e st2
                    = (.error (.abortError sc det), st3) := by
                  rw [hh]
                  cases rh with
                  | ok u => simp at htm
                  | error e2 => rw [htm]
                show ((h req (.controller d) e >>= fun _ =>
                    M.throw (.abortError .unknown e.pystr)) st2).1 = _
                rw [bind_error hh2]

/-- C1 witness: the fixtures — a raising producer escapes the chain
uncaught; a successful resolution with the default-free registry yields
a completed or aborted call. -/
theorem c1_amended_witness :
    TameHandlers ([] : List (Nat × HandlerFn)) ∧
    ((dispatchNotIterable envRaise 10 epsRaise [] (some ⟨55⟩) methodOkFix)
        (.pystr "req") .transport) St.init
      = (.error (.exc [42] "boom"), ⟨0, [], [], [], [.invoke 3]⟩) ∧
    ((∃ v, (((dispatchNotIterable envShared 10 epsShared []
        (some ⟨55⟩) methodOkFix) (.pystr "req") .transport) St.init).1
          = .ok v) ∨
     (∃ sc det, (((dispatchNotIterable envShared 10 epsShared []
        (some ⟨55⟩) methodOkFix) (.pystr "req") .transport) St.init).1
          = .error (.abortError sc det))) := by
  have htame : TameHandlers ([] : List (Nat × HandlerFn)) := by
    intro k h hmem
    simp at hmem
  refine ⟨htame, ?_, ?_⟩
  · exact (c1_amended envRaise 10 epsRaise [] (some ⟨55⟩) ⟨55⟩ methodOkFix
      (.pystr "req") .transport St.init htame).1 (.exc [42] "boom")
      ⟨0, [], [], [], [.invoke 3]⟩ (by decide)
  · exact (c1_amended envShared 10 epsShared [] (some ⟨55⟩) ⟨55⟩ methodOkFix
      (.pystr "req") .transport St.init htame).2
      [("a", .pystr "shared"), ("b", .pystr "shared")]
      ⟨0, [], [], [], [.invoke 7, .invoke 7]⟩ (by decide)

end FastGRPC
